import Mathlib

/-!
Verification of the session persistence subsystem of RTLSDR-Scanner
(`src/rtlsdr_scanner/file.py`): the versioned codec (`open_plot`,
`save_plot`) and the backup manager (`Backups`).

Modelling conventions (shallow embedding):
* Python runtime values in scope are modelled by `PyVal`: `None`, numbers,
  strings, lists, string-keyed dicts (as produced by `json.loads`) and
  number-keyed dicts (in-memory spectra and unpickled objects).  Python
  floats are modelled as rationals `ℚ`; Python 3 float repr / `float()`
  parsing round-trips exactly, which the `ratToKey` / `parseRatStr` codec
  models at the rational level.
* A file on disk is modelled by `RawFile`, which records both views the
  code takes of the same bytes: the sequence of values successive
  `pickle.load` calls produce (with the error class of the first failing
  load), and the result of `json.loads` on the whole content (`none` when
  it raises `ValueError`).
* Fallible Python code is modelled in `Except PyExn`; exception classes
  that `open_plot` catches (`ValueError`, `KeyError`, `PickleError`,
  `UnpicklingError`, `EOFError` on the first load) are translated to the
  corrupt result exactly where the source catches them, all other
  exceptions propagate.
-/

/-- Python exception classes that can escape or be caught in the code
under verification. -/
inductive PyExn where
  | valueError
  | keyError
  | typeError
  | indexError
  | attributeError
  | eofError
  deriving DecidableEq, Repr

/-- A Python runtime value, as far as the persistence code is concerned.
`dictS` is a string-keyed dict (the only dict shape `json.loads`
produces), `dictN` a number-keyed dict (in-memory spectra, unpickled
spectra).  Python dict insertion order is significant, so dicts are
association lists. -/
inductive PyVal where
  | none
  | num (q : ℚ)
  | str (s : String)
  | list (xs : List PyVal)
  | dictS (fs : List (String × PyVal))
  | dictN (fs : List (ℚ × PyVal))

/-! ## Stringified numeric keys

`json.dumps` turns the float keys of the spectrum and location dicts into
their `repr` strings; `open_plot` parses them back with `float(...)`.
Python 3's float repr is read back exactly by `float`, so at the rational
level the codec is an injective stringification with an exact parse.
`ratToKey` writes a rational as (sign) numerator, and `/denominator` when
the denominator is not 1; `parseRatStr` parses that shape and rejects
everything else (modelling `float` raising `ValueError`). -/

/-- Decimal digit characters of a natural number, most significant first. -/
def natKeyChars (a : ℕ) : List Char :=
  if a = 0 then ['0'] else ((Nat.digits 10 a).map Nat.digitChar).reverse

/-- The stringified form of a rational key, modelling Python float repr. -/
def ratToKey (q : ℚ) : String :=
  ⟨(if q < 0 then ['-'] else []) ++ natKeyChars q.num.natAbs ++
    (if q.den = 1 then [] else '/' :: natKeyChars q.den)⟩

/-- Numeric value of a decimal digit character. -/
def digitVal (c : Char) : Option ℕ :=
  if '0' ≤ c ∧ c ≤ '9' then some (c.toNat - 48) else none

/-- Accumulating decimal parser over characters. -/
def parseNatCore : List Char → ℕ → Option ℕ
  | [], acc => some acc
  | c :: rest, acc =>
    match digitVal c with
    | some d => parseNatCore rest (10 * acc + d)
    | Option.none => Option.none

/-- Parse a non-empty all-digit character list. -/
def parseNatChars (cs : List Char) : Option ℕ :=
  match cs with
  | [] => Option.none
  | c :: rest => parseNatCore (c :: rest) 0

/-- Parse an unsigned rational key body: digits, optionally followed by a
slash and the denominator digits. -/
def parsePosChars (cs : List Char) : Option ℚ :=
  match cs.dropWhile (fun c => c != '/') with
  | [] => (parseNatChars (cs.takeWhile (fun c => c != '/'))).map (fun a => (a : ℚ))
  | _ :: denPart =>
    match parseNatChars (cs.takeWhile (fun c => c != '/')), parseNatChars denPart with
    | some a, some d => if d = 0 then Option.none else some ((a : ℚ) / (d : ℚ))
    | _, _ => Option.none

/-- Parse a stringified numeric key, modelling Python's `float(...)`:
`none` models `ValueError`. -/
def parseRatStr (s : String) : Option ℚ :=
  match s.data with
  | [] => Option.none
  | c :: rest =>
    if c = '-' then (parsePosChars rest).map (fun q => -q)
    else parsePosChars (c :: rest)

theorem digitVal_digitChar : ∀ d, d < 10 → digitVal (Nat.digitChar d) = some d := by
  decide

theorem parseNatCore_map_digitChar (L : List ℕ) (h : ∀ d ∈ L, d < 10) (acc : ℕ) :
    parseNatCore (L.map Nat.digitChar) acc =
      some (L.foldl (fun a d => 10 * a + d) acc) := by
  induction L generalizing acc with
  | nil => rfl
  | cons d t ih =>
    have hd : d < 10 := h d (by simp)
    simp only [List.map_cons, parseNatCore, digitVal_digitChar d hd, List.foldl_cons]
    exact ih (fun x hx => h x (by simp [hx])) _

theorem foldl_reverse_digits (ds : List ℕ) (acc : ℕ) :
    ds.reverse.foldl (fun a d => 10 * a + d) acc =
      acc * 10 ^ ds.length + Nat.ofDigits 10 ds := by
  induction ds generalizing acc with
  | nil => simp
  | cons d t ih =>
    simp only [List.reverse_cons, List.foldl_append, List.foldl_cons, List.foldl_nil,
      ih, Nat.ofDigits_cons, List.length_cons]
    ring

theorem parseNatChars_natKeyChars (a : ℕ) : parseNatChars (natKeyChars a) = some a := by
  by_cases h0 : a = 0
  · subst h0; rfl
  · have hne : Nat.digits 10 a ≠ [] := Nat.digits_ne_nil_iff_ne_zero.mpr h0
    have hlt : ∀ d ∈ (Nat.digits 10 a).reverse, d < 10 := fun d hd =>
      Nat.digits_lt_base (by norm_num) (List.mem_reverse.mp hd)
    have hform : natKeyChars a = (Nat.digits 10 a).reverse.map Nat.digitChar := by
      unfold natKeyChars
      rw [if_neg h0, ← List.map_reverse]
    cases hct : (Nat.digits 10 a).reverse.map Nat.digitChar with
    | nil =>
      exfalso
      apply hne
      rw [List.map_eq_nil_iff, List.reverse_eq_nil_iff] at hct
      exact hct
    | cons c t =>
      have hstep : parseNatChars (natKeyChars a) =
          parseNatCore ((Nat.digits 10 a).reverse.map Nat.digitChar) 0 := by
        rw [hform, hct]
        rfl
      rw [hstep, parseNatCore_map_digitChar _ hlt 0, foldl_reverse_digits]
      simp [Nat.ofDigits_digits]

theorem natKeyChars_all (a : ℕ) : ∀ c ∈ natKeyChars a, c != '-' ∧ c != '/' := by
  intro c hc
  have hdig : ∀ d, d < 10 → (Nat.digitChar d != '-' ∧ Nat.digitChar d != '/') := by
    decide
  unfold natKeyChars at hc
  by_cases h0 : a = 0
  · rw [if_pos h0] at hc
    simp only [List.mem_singleton] at hc
    subst hc; decide
  · rw [if_neg h0, List.mem_reverse, List.mem_map] at hc
    obtain ⟨d, hd, rfl⟩ := hc
    exact hdig d (Nat.digits_lt_base (by norm_num) hd)

theorem natKeyChars_ne_nil (a : ℕ) : natKeyChars a ≠ [] := by
  unfold natKeyChars
  by_cases h0 : a = 0
  · simp [h0]
  · rw [if_neg h0]
    have hne : Nat.digits 10 a ≠ [] := Nat.digits_ne_nil_iff_ne_zero.mpr h0
    simpa using hne

theorem takeWhile_all_append (A B : List Char) (hA : ∀ c ∈ A, (c != '/') = true) :
    (A ++ '/' :: B).takeWhile (fun c => c != '/') = A ∧
      (A ++ '/' :: B).dropWhile (fun c => c != '/') = '/' :: B := by
  induction A with
  | nil => constructor <;> rfl
  | cons c t ih =>
    have hc : (c != '/') = true := hA c (by simp)
    have iht := ih (fun x hx => hA x (by simp [hx]))
    constructor
    · rw [List.cons_append, List.takeWhile_cons, hc]
      simp only [if_true]
      rw [iht.1]
    · rw [List.cons_append, List.dropWhile_cons, hc]
      simp only [if_true]
      exact iht.2

theorem takeWhile_all_self (A : List Char) (hA : ∀ c ∈ A, (c != '/') = true) :
    A.takeWhile (fun c => c != '/') = A ∧ A.dropWhile (fun c => c != '/') = [] := by
  induction A with
  | nil => constructor <;> rfl
  | cons c t ih =>
    have hc : (c != '/') = true := hA c (by simp)
    have iht := ih (fun x hx => hA x (by simp [hx]))
    constructor
    · rw [List.takeWhile_cons, hc]
      simp only [if_true]
      rw [iht.1]
    · rw [List.dropWhile_cons, hc]
      simp only [if_true]
      exact iht.2

theorem parsePosChars_body (a : ℕ) (d : ℕ) (hd0 : d ≠ 0) :
    parsePosChars (natKeyChars a ++ '/' :: natKeyChars d) = some ((a : ℚ) / (d : ℚ)) := by
  have hall : ∀ c ∈ natKeyChars a, (c != '/') = true := fun c hc => (natKeyChars_all a c hc).2
  obtain ⟨ht, hdr⟩ := takeWhile_all_append (natKeyChars a) (natKeyChars d) hall
  unfold parsePosChars
  rw [ht, hdr]
  simp only [parseNatChars_natKeyChars, if_neg hd0]

theorem parsePosChars_int (a : ℕ) :
    parsePosChars (natKeyChars a) = some (a : ℚ) := by
  have hall : ∀ c ∈ natKeyChars a, (c != '/') = true := fun c hc => (natKeyChars_all a c hc).2
  obtain ⟨ht, hdr⟩ := takeWhile_all_self (natKeyChars a) hall
  unfold parsePosChars
  rw [ht, hdr]
  simp [parseNatChars_natKeyChars]

theorem parseRatStr_cons (c : Char) (t : List Char) :
    parseRatStr ⟨c :: t⟩ =
      if c = '-' then (parsePosChars t).map (fun q => -q) else parsePosChars (c :: t) :=
  rfl

/-- The key codec round-trips: parsing the stringified form of any
rational key restores the key. -/
theorem parseRatStr_ratToKey (q : ℚ) : parseRatStr (ratToKey q) = some q := by
  have hbody : parsePosChars (natKeyChars q.num.natAbs ++
      (if q.den = 1 then [] else '/' :: natKeyChars q.den)) =
      some ((q.num.natAbs : ℚ) / (q.den : ℚ)) := by
    by_cases hden : q.den = 1
    · rw [if_pos hden, List.append_nil, parsePosChars_int, hden]
      norm_num
    · rw [if_neg hden]
      exact parsePosChars_body _ _ q.den_nz
  have habs : ((q.num.natAbs : ℚ) / (q.den : ℚ)) = |q| := by
    have h1 : ((q.num.natAbs : ℚ)) = |(q.num : ℚ)| := by
      rw [Int.cast_natAbs, Int.cast_abs]
    have h2 : |(q.den : ℚ)| = (q.den : ℚ) := abs_of_pos (by exact_mod_cast q.pos)
    rw [h1, ← h2, ← abs_div, Rat.num_div_den]
  by_cases hq : q < 0
  · have hkey : ratToKey q = ⟨'-' :: (natKeyChars q.num.natAbs ++
        (if q.den = 1 then [] else '/' :: natKeyChars q.den))⟩ := by
      unfold ratToKey
      rw [if_pos hq]
      rfl
    rw [hkey, parseRatStr_cons, if_pos rfl, hbody]
    simp only [Option.map_some']
    rw [habs, abs_of_neg hq, neg_neg]
  · cases hk : natKeyChars q.num.natAbs with
    | nil => exact absurd hk (natKeyChars_ne_nil _)
    | cons c t =>
      have hc : (c != '-') = true := (natKeyChars_all _ c (by rw [hk]; simp)).1
      have hc' : ¬ (c = '-') := by
        intro hcc
        rw [hcc] at hc
        exact absurd hc (by decide)
      have hkey : ratToKey q = ⟨c :: (t ++
          (if q.den = 1 then [] else '/' :: natKeyChars q.den))⟩ := by
        unfold ratToKey
        rw [if_neg hq, hk]
        rfl
      rw [hkey, parseRatStr_cons, if_neg hc', ← List.cons_append, ← hk, hbody]
      rw [habs, abs_of_nonneg (le_of_not_lt hq)]

/-! ## Data model -/

/-- The required literal header marker.
Modelled from the spec: `File.HEADER = APP_NAME`, imported from the
`rtlsdr_scanner.constants` module which is not part of the sources under
verification; the spec only requires it to be a fixed literal constant. -/
def APP_NAME : String := "RTLSDR Scanner"

/-- In-memory scan metadata (`class ScanInfo` in `file.py`), restricted to
the fields that `open_plot` fills and `save_plot` reads.  (The Python
class also carries `timeFirst` / `timeLast`, which neither function
touches.)  All fields are dynamically typed Python values. -/
structure ScanInfo where
  start : PyVal
  stop : PyVal
  dwell : PyVal
  nfft : PyVal
  name : PyVal
  gain : PyVal
  lo : PyVal
  calibration : PyVal
  tuner : PyVal
  time : PyVal
  lat : PyVal
  lon : PyVal
  desc : PyVal

/-- In-memory spectrum handed to consumers: sweep timestamp to
(frequency to power), insertion-ordered. -/
abbrev SpectrumM := List (ℚ × List (ℚ × PyVal))

/-- In-memory location track: timestamp to raw location value. -/
abbrev LocationM := List (ℚ × PyVal)

/-- Result of `open_plot`.  In Python both `notFound` and `corrupt`
return the tuple `(None, None, None)`; they are distinguished by the
warning dialog shown only on the corrupt path. -/
inductive OpenResult where
  | notFound
  | corrupt
  | ok (info : ScanInfo) (spectrum : SpectrumM) (location : LocationM)

/-- How the first failing `pickle.load` call on a file fails. -/
inductive TailErr where
  | eof
  | unpickling
  deriving DecidableEq

/-- The two views `open_plot` takes of one file's bytes: the values that
successive `pickle.load` calls yield (then `tail` says how the next load
fails), and the result of `json.loads` on the whole content (`none`
models `ValueError`). -/
structure RawFile where
  records : List PyVal
  tail : TailErr
  json : Option PyVal

/-! ## Python primitive operations -/

/-- Python dict assignment `d[k] = v`: replace in place if the key is
present, else append. -/
def dictSet {κ α : Type} [DecidableEq κ] : List (κ × α) → κ → α → List (κ × α)
  | [], k, v => [(k, v)]
  | (k', v') :: t, k, v =>
    if k' = k then (k', v) :: t else (k', v') :: dictSet t k v

/-- Association-list lookup (Python dict subscript on a present key). -/
def assocFind {κ α : Type} [DecidableEq κ] : List (κ × α) → κ → Option α
  | [], _ => Option.none
  | (k', v') :: t, k => if k' = k then some v' else assocFind t k

/-- Python `x[i]` for an integer index. -/
def pyIndex : PyVal → ℕ → Except PyExn PyVal
  | .list xs, i =>
    match xs.get? i with
    | some v => .ok v
    | Option.none => .error .indexError
  | .str s, i =>
    match s.data.get? i with
    | some c => .ok (.str ⟨[c]⟩)
    | Option.none => .error .indexError
  | .dictS _, _ => .error .keyError
  | .dictN _, _ => .error .keyError
  | _, _ => .error .typeError

/-- Python `x[k]` for a string key. -/
def pyGetS : PyVal → String → Except PyExn PyVal
  | .dictS fs, k =>
    match assocFind fs k with
    | some v => .ok v
    | Option.none => .error .keyError
  | .dictN _, _ => .error .keyError
  | _, _ => .error .typeError

/-- Python `x.items()`, as (key, value) pairs of Python values. -/
def pyItems : PyVal → Except PyExn (List (PyVal × PyVal))
  | .dictS fs => .ok (fs.map (fun kv => (.str kv.1, kv.2)))
  | .dictN fs => .ok (fs.map (fun kv => (.num kv.1, kv.2)))
  | _ => .error .attributeError

/-- Python `float(x)`: identity on numbers, decimal parse on strings
(`ValueError` on a malformed string), `TypeError` otherwise. -/
def pyFloat : PyVal → Except PyExn ℚ
  | .num q => .ok q
  | .str s =>
    match parseRatStr s with
    | some q => .ok q
    | Option.none => .error .valueError
  | _ => .error .typeError

/-- Python `x > n` against a number: `TypeError` unless `x` is a number. -/
def pyGtInt : PyVal → ℚ → Except PyExn Bool
  | .num q, n => .ok (decide (n < q))
  | _, _ => .error .typeError

/-- Python `x < n` against a number: `TypeError` unless `x` is a number. -/
def pyLtInt : PyVal → ℚ → Except PyExn Bool
  | .num q, n => .ok (decide (q < n))
  | _, _ => .error .typeError

/-- Python `x == s` for a known string constant `s`: only equal strings
compare equal. -/
def pyEqStr : PyVal → String → Bool
  | .str s', s => s' == s
  | _, _ => false

/-- Python `spectrum[t][f] = p`: `KeyError` if `t` is absent, `TypeError`
if the value at `t` does not support item assignment. -/
def dictSetInner (sp : List (ℚ × PyVal)) (t f : ℚ) (p : PyVal) :
    Except PyExn (List (ℚ × PyVal)) :=
  match assocFind sp t with
  | some (.dictN inner) => .ok (dictSet sp t (.dictN (dictSet inner f p)))
  | some _ => .error .typeError
  | Option.none => .error .keyError

/-! ## The decoder `open_plot` -/

/-- All local variables `open_plot` assembles before the final header
check. -/
structure Fields where
  header : PyVal
  start : PyVal
  stop : PyVal
  dwell : PyVal
  nfft : PyVal
  name : PyVal
  gain : PyVal
  lo : PyVal
  calibration : PyVal
  tuner : PyVal
  time : PyVal
  lat : PyVal
  lon : PyVal
  desc : PyVal
  spectrum : List (ℚ × PyVal)
  location : LocationM

/-- The initial values of `open_plot`'s locals (lines 286-303 of
`file.py`). -/
def initFields : Fields where
  header := .str APP_NAME
  start := .num 0
  stop := .num 0
  dwell := .num (0.131 : ℚ)
  nfft := .num 1024
  name := .none
  gain := .none
  lo := .none
  calibration := .none
  tuner := .num 0
  time := .none
  lat := .none
  lon := .none
  desc := .str ""
  spectrum := []
  location := []

/-- The `version < 7` spectrum loop:
`for f, p in data[1]['Spectrum'].items(): spectrum[1][float(f)] = p`. -/
def loopFlat (sp : List (ℚ × PyVal)) : List (PyVal × PyVal) →
    Except PyExn (List (ℚ × PyVal))
  | [] => .ok sp
  | (fk, p) :: rest => do
    let f ← pyFloat fk
    let sp' ← dictSetInner sp 1 f p
    loopFlat sp' rest

/-- Inner loop of the nested spectrum read:
`for f, p in s.items(): spectrum[float(t)][float(f)] = p`. -/
def loopInner (sp : List (ℚ × PyVal)) (t : ℚ) : List (PyVal × PyVal) →
    Except PyExn (List (ℚ × PyVal))
  | [] => .ok sp
  | (fk, p) :: rest => do
    let f ← pyFloat fk
    let sp' ← dictSetInner sp t f p
    loopInner sp' t rest

/-- Outer loop of the nested spectrum read (`version ≥ 7`):
`for t, s in data[1]['Spectrum'].items(): spectrum[float(t)] = {}; ...`. -/
def loopNested (sp : List (ℚ × PyVal)) : List (PyVal × PyVal) →
    Except PyExn (List (ℚ × PyVal))
  | [] => .ok sp
  | (tk, sv) :: rest => do
    let t ← pyFloat tk
    let sp' := dictSet sp t (.dictN [])
    let sItems ← pyItems sv
    let sp'' ← loopInner sp' t sItems
    loopNested sp'' rest

/-- The location loop (`version > 8`):
`for t, l in data[1]['Location'].items(): location[float(t)] = l`. -/
def loopLoc (loc : LocationM) : List (PyVal × PyVal) → Except PyExn LocationM
  | [] => .ok loc
  | (tk, l) :: rest => do
    let t ← pyFloat tk
    loopLoc (dictSet loc t l) rest

/-- The JSON branch of `open_plot` (lines 325-360): everything inside the
`try` block.  `ValueError` / `KeyError` escaping from here are caught by
the source and set `error = True`; any other exception propagates. -/
def jsonBody (doc : PyVal) : Except PyExn Fields :=
  pyIndex doc 0 >>= fun header =>
  pyIndex doc 1 >>= fun d1 =>
  pyGetS d1 "Version" >>= fun version =>
  pyGetS d1 "Start" >>= fun start =>
  pyGetS d1 "Stop" >>= fun stop =>
  pyGtInt version 1 >>= fun g1 =>
  (if g1 then pyGetS d1 "Dwell" else pure initFields.dwell) >>= fun dwell =>
  (if g1 then pyGetS d1 "Nfft" else pure initFields.nfft) >>= fun nfft =>
  pyGtInt version 2 >>= fun g2 =>
  (if g2 then pyGetS d1 "Device" else pure PyVal.none) >>= fun name =>
  (if g2 then pyGetS d1 "Gain" else pure PyVal.none) >>= fun gain =>
  (if g2 then pyGetS d1 "LO" else pure PyVal.none) >>= fun lo =>
  (if g2 then pyGetS d1 "Calibration" else pure PyVal.none) >>= fun calibration =>
  pyGtInt version 4 >>= fun g4 =>
  (if g4 then pyGetS d1 "Tuner" else pure (PyVal.num 0)) >>= fun tuner =>
  pyGtInt version 5 >>= fun g5 =>
  (if g5 then pyGetS d1 "Time" else pure PyVal.none) >>= fun time =>
  (if g5 then pyGetS d1 "Latitude" else pure PyVal.none) >>= fun lat =>
  (if g5 then pyGetS d1 "Longitude" else pure PyVal.none) >>= fun lon =>
  pyLtInt version 7 >>= fun lt7 =>
  (if lt7 then
    let sp0 := dictSet ([] : List (ℚ × PyVal)) 1 (.dictN [])
    pyGetS d1 "Spectrum" >>= fun spv =>
    pyItems spv >>= fun items =>
    loopFlat sp0 items
  else
    pyGetS d1 "Spectrum" >>= fun spv =>
    pyItems spv >>= fun items =>
    loopNested [] items) >>= fun spectrum =>
  pyGtInt version 7 >>= fun g7 =>
  (if g7 then pyGetS d1 "Description" else pure (PyVal.str "")) >>= fun desc =>
  pyGtInt version 8 >>= fun g8 =>
  (if g8 then
    pyGetS d1 "Location" >>= fun lv =>
    pyItems lv >>= fun items =>
    loopLoc [] items
  else pure []) >>= fun location =>
  Except.ok ⟨header, start, stop, dwell, nfft, name, gain, lo, calibration, tuner,
    time, lat, lon, desc, spectrum, location⟩

/-- Sort order on entries of a numeric-keyed association list. -/
def entryLe {α : Type} (a b : ℚ × α) : Prop := a.1 ≤ b.1

/-- Strict key order on entries of a numeric-keyed association list. -/
def entryLt {α : Type} (a b : ℚ × α) : Prop := a.1 < b.1

instance {α : Type} : DecidableRel (entryLt (α := α)) := fun a b =>
  inferInstanceAs (Decidable (a.1 < b.1))

instance {α : Type} : DecidableRel (entryLe (α := α)) := fun a b =>
  inferInstanceAs (Decidable (a.1 ≤ b.1))

instance {α : Type} : IsTotal (ℚ × α) entryLe := ⟨fun a b => le_total a.1 b.1⟩

instance {α : Type} : IsTrans (ℚ × α) entryLe := ⟨fun _ _ _ h h' => le_trans h h'⟩

/-- Modelled from the spec: `sort_spectrum`, imported from the
`rtlsdr_scanner.spectrum` module which is not part of the sources under
verification.  Per the spec it sorts the spectrum outer-by-timestamp and
inner-by-frequency before it is handed to a consumer; each sweep must be
a numeric-keyed dict for its items to be sortable. -/
def sortSweep (tv : ℚ × PyVal) : Except PyExn (ℚ × List (ℚ × PyVal)) :=
  match tv.2 with
  | .dictN inner => .ok (tv.1, List.insertionSort entryLe inner)
  | _ => .error .typeError

/-- Modelled from the spec (continued): the full spectrum sort. -/
def sort_spectrum (sp : List (ℚ × PyVal)) : Except PyExn SpectrumM :=
  (List.insertionSort entryLe sp).mapM sortSweep

/-- The tail of `open_plot` (lines 369-389): the corrupt check against
the header marker, then assembly of the `ScanInfo` and the sorted
spectrum. -/
def finishPlot (flds : Fields) : Except PyExn OpenResult :=
  if pyEqStr flds.header APP_NAME then do
    let sorted ← sort_spectrum flds.spectrum
    .ok (.ok ⟨flds.start, flds.stop, flds.dwell, flds.nfft, flds.name, flds.gain,
      flds.lo, flds.calibration, flds.tuner, flds.time, flds.lat, flds.lon,
      flds.desc⟩ sorted flds.location)
  else .ok .corrupt

/-- The JSON decode path taken when the first `pickle.load` fails:
`json.loads` failure or a caught `ValueError` / `KeyError` set
`error = True` and yield the corrupt result. -/
def jsonPath (f : RawFile) : Except PyExn OpenResult :=
  match f.json with
  | Option.none => .ok .corrupt
  | some doc =>
    match jsonBody doc with
    | .error .valueError => .ok .corrupt
    | .error .keyError => .ok .corrupt
    | .error e => .error e
    | .ok flds => finishPlot flds

/-- `open_plot` (lines 285-389).  `none` models a path that does not
exist.  If the first `pickle.load` fails (`UnpicklingError` or
`EOFError`), the JSON path is taken; otherwise the legacy binary path
reads header, version (ignored), start, stop and the flat spectrum, a
later `UnpicklingError` (a `PickleError`) sets `error = True`, and a
later `EOFError` is not caught by the source and propagates. -/
def open_plot (file : Option RawFile) : Except PyExn OpenResult :=
  match file with
  | Option.none => .ok .notFound
  | some f =>
    match f.records with
    | [] => jsonPath f
    | hdr :: rest =>
      match rest with
      | _version :: s1 :: s2 :: spec :: _ =>
        finishPlot { initFields with
          header := hdr
          start := s1
          stop := s2
          spectrum := dictSet (dictSet [] 1 (.dictN [])) 1 spec }
      | _ =>
        match f.tail with
        | .unpickling => .ok .corrupt
        | .eof => .error .eofError

/-! ## The encoder `save_plot` -/

/-- `save_plot` (lines 392-412) composed with `json.loads`: the JSON
document tree an immediate re-read of the written file yields.  Dict keys
are stringified by `json.dumps` exactly as `ratToKey` models; values are
written as-is (exact for the `None` / number / string / list values these
positions hold in well-formed sessions). -/
def save_plot (scanInfo : ScanInfo) (spectrum : SpectrumM) (location : LocationM) :
    PyVal :=
  .list [.str APP_NAME, .dictS [
    ("Version", .num 9),
    ("Start", scanInfo.start),
    ("Stop", scanInfo.stop),
    ("Dwell", scanInfo.dwell),
    ("Nfft", scanInfo.nfft),
    ("Device", scanInfo.name),
    ("Gain", scanInfo.gain),
    ("LO", scanInfo.lo),
    ("Calibration", scanInfo.calibration),
    ("Tuner", scanInfo.tuner),
    ("Time", scanInfo.time),
    ("Latitude", scanInfo.lat),
    ("Longitude", scanInfo.lon),
    ("Description", scanInfo.desc),
    ("Spectrum", .dictS (spectrum.map (fun ts =>
      (ratToKey ts.1, .dictS (ts.2.map (fun fp => (ratToKey fp.1, fp.2))))))),
    ("Location", .dictS (location.map (fun tl => (ratToKey tl.1, tl.2))))]]

/-- The on-disk file `save_plot` produces: its text begins with `[`,
which is not a pickle opcode, so the first `pickle.load` raises
`UnpicklingError`; `json.loads` yields the document tree back. -/
def savedFile (scanInfo : ScanInfo) (spectrum : SpectrumM) (location : LocationM) :
    RawFile :=
  ⟨[], .unpickling, some (save_plot scanInfo spectrum location)⟩

/-! ## Association-list lemmas -/

theorem assocFind_eq_none {κ α : Type} [DecidableEq κ] (l : List (κ × α)) (k : κ)
    (h : k ∉ l.map Prod.fst) : assocFind l k = Option.none := by
  induction l with
  | nil => rfl
  | cons e t ih =>
    simp only [List.map_cons, List.mem_cons] at h
    push_neg at h
    have hne : ¬ (e.1 = k) := fun he => h.1 he.symm
    simp only [assocFind, if_neg hne]
    exact ih h.2

theorem dictSet_append {κ α : Type} [DecidableEq κ] (l : List (κ × α)) (k : κ) (v : α)
    (h : k ∉ l.map Prod.fst) : dictSet l k v = l ++ [(k, v)] := by
  induction l with
  | nil => rfl
  | cons e t ih =>
    simp only [List.map_cons, List.mem_cons] at h
    push_neg at h
    have hne : ¬ (e.1 = k) := fun he => h.1 he.symm
    simp only [dictSet, if_neg hne, List.cons_append, ih h.2]

theorem assocFind_dictSet_self {κ α : Type} [DecidableEq κ] (l : List (κ × α)) (k : κ)
    (v : α) : assocFind (dictSet l k v) k = some v := by
  induction l with
  | nil => simp [dictSet, assocFind]
  | cons e t ih =>
    by_cases he : e.1 = k
    · simp only [dictSet, if_pos he, assocFind, if_pos he]
    · simp only [dictSet, if_neg he, assocFind, if_neg he]
      exact ih

theorem dictSet_dictSet_self {κ α : Type} [DecidableEq κ] (l : List (κ × α)) (k : κ)
    (v w : α) : dictSet (dictSet l k v) k w = dictSet l k w := by
  induction l with
  | nil => simp [dictSet]
  | cons e t ih =>
    by_cases he : e.1 = k
    · simp only [dictSet, if_pos he]
    · simp only [dictSet, if_neg he, ih]

theorem keys_dictSet_subset {κ α : Type} [DecidableEq κ] (l : List (κ × α)) (k : κ)
    (v : α) : (dictSet l k v).map Prod.fst ⊆ k :: l.map Prod.fst := by
  induction l with
  | nil =>
    intro x hx
    simp only [dictSet, List.map_cons, List.map_nil, List.mem_singleton] at hx
    simp [hx]
  | cons e t ih =>
    by_cases he : e.1 = k
    · simp only [dictSet, if_pos he, List.map_cons]
      intro x hx
      simp only [List.mem_cons] at hx ⊢
      tauto
    · simp only [dictSet, if_neg he, List.map_cons]
      intro x hx
      simp only [List.mem_cons] at hx ⊢
      rcases hx with h1 | h1
      · tauto
      · have := ih h1
        simp only [List.mem_cons] at this
        tauto

theorem keys_dictSet_nodup {κ α : Type} [DecidableEq κ] (l : List (κ × α)) (k : κ)
    (v : α) (h : (l.map Prod.fst).Nodup) : ((dictSet l k v).map Prod.fst).Nodup := by
  induction l with
  | nil => exact List.nodup_singleton k
  | cons e t ih =>
    simp only [List.map_cons, List.nodup_cons] at h
    by_cases he : e.1 = k
    · simp only [dictSet, if_pos he, List.map_cons, List.nodup_cons]
      exact h
    · simp only [dictSet, if_neg he, List.map_cons, List.nodup_cons]
      refine ⟨fun hmem => ?_, ih h.2⟩
      have := keys_dictSet_subset t k v hmem
      simp only [List.mem_cons] at this
      rcases this with h1 | h1
      · exact he h1
      · exact h.1 h1

theorem foldl_dictSet_append {κ α : Type} [DecidableEq κ] (inner : List (κ × α)) :
    ∀ acc : List (κ × α), (∀ fp ∈ inner, fp.1 ∉ acc.map Prod.fst) →
      (inner.map Prod.fst).Nodup →
      inner.foldl (fun d fp => dictSet d fp.1 fp.2) acc = acc ++ inner := by
  induction inner with
  | nil => intro acc _ _; simp
  | cons fp t ih =>
    intro acc hdisj hnd
    simp only [List.map_cons, List.nodup_cons] at hnd
    simp only [List.foldl_cons]
    rw [dictSet_append acc fp.1 fp.2 (hdisj fp (by simp))]
    rw [ih (acc ++ [(fp.1, fp.2)]) ?_ hnd.2]
    · simp
    · intro x hx
      simp only [List.map_append, List.mem_append, List.map_cons, List.map_nil,
        List.mem_singleton]
      push_neg
      refine ⟨hdisj x (by simp [hx]), fun he => ?_⟩
      exact hnd.1 (he ▸ List.mem_map_of_mem Prod.fst hx)

theorem dictSet_of_assocFind {κ α : Type} [DecidableEq κ] (l : List (κ × α)) (k : κ)
    (v : α) (h : assocFind l k = some v) : dictSet l k v = l := by
  induction l with
  | nil => simp [assocFind] at h
  | cons e t ih =>
    by_cases he : e.1 = k
    · simp only [assocFind, if_pos he, Option.some.injEq] at h
      subst h
      simp only [dictSet, if_pos he]
    · simp only [assocFind, if_neg he] at h
      simp only [dictSet, if_neg he, ih h]

/-! ## Monadic helpers for `Except` -/

@[simp] theorem ebind_ok {α β : Type} (a : α) (f : α → Except PyExn β) :
    (Except.ok a >>= f : Except PyExn β) = f a := rfl

@[simp] theorem ebind_error {α β : Type} (e : PyExn) (f : α → Except PyExn β) :
    (Except.error e >>= f : Except PyExn β) = Except.error e := rfl

@[simp] theorem epure_eq_ok {α : Type} (a : α) :
    (pure a : Except PyExn α) = Except.ok a := rfl

theorem except_ok_bind {α β : Type} {x : Except PyExn α} {f : α → Except PyExn β}
    {b : β} : (x >>= f) = .ok b ↔ ∃ a, x = .ok a ∧ f a = .ok b := by
  cases x with
  | ok a => simp
  | error e => simp [ebind_error]

/-! ## Behaviour of the decode loops on encoder output -/

theorem loopInner_spec (inner : List (ℚ × PyVal)) :
    ∀ (sp : List (ℚ × PyVal)) (t : ℚ) (cur : List (ℚ × PyVal)),
      assocFind sp t = some (.dictN cur) →
      loopInner sp t ((inner.map (fun fp => (ratToKey fp.1, fp.2))).map
          (fun kv => (PyVal.str kv.1, kv.2))) =
        .ok (dictSet sp t (.dictN
          (inner.foldl (fun d fp => dictSet d fp.1 fp.2) cur))) := by
  induction inner with
  | nil =>
    intro sp t cur hfind
    simp only [List.map_nil, loopInner, List.foldl_nil]
    rw [dictSet_of_assocFind sp t _ hfind]
  | cons fp rest ih =>
    intro sp t cur hfind
    simp only [List.map_cons, loopInner, pyFloat, parseRatStr_ratToKey, ebind_ok,
      dictSetInner, hfind, List.foldl_cons]
    rw [ih (dictSet sp t (.dictN (dictSet cur fp.1 fp.2))) t (dictSet cur fp.1 fp.2)
      (assocFind_dictSet_self sp t _), dictSet_dictSet_self]

theorem loopFlat_eq_loopInner (items : List (PyVal × PyVal)) :
    ∀ sp : List (ℚ × PyVal), loopFlat sp items = loopInner sp 1 items := by
  induction items with
  | nil => intro sp; rfl
  | cons kv rest ih =>
    intro sp
    simp only [loopFlat, loopInner]
    cases pyFloat kv.1 with
    | error e => rfl
    | ok f =>
      simp only [ebind_ok]
      cases dictSetInner sp 1 f kv.2 with
      | error e => rfl
      | ok sp' => simp only [ebind_ok, ih sp']

theorem loopNested_spec (outer : SpectrumM) :
    ∀ sp : List (ℚ × PyVal),
      (∀ ts ∈ outer, ts.1 ∉ sp.map Prod.fst) →
      (outer.map Prod.fst).Nodup →
      loopNested sp ((outer.map (fun ts => (ratToKey ts.1,
          PyVal.dictS (ts.2.map (fun fp => (ratToKey fp.1, fp.2)))))).map
          (fun kv => (PyVal.str kv.1, kv.2))) =
        .ok (sp ++ outer.map (fun ts => (ts.1,
          PyVal.dictN (ts.2.foldl (fun d fp => dictSet d fp.1 fp.2) [])))) := by
  induction outer with
  | nil => intro sp _ _; simp [loopNested]
  | cons ts rest ih =>
    intro sp hdisj hnd
    simp only [List.map_cons, List.nodup_cons] at hnd
    simp only [List.map_cons, loopNested, pyFloat, parseRatStr_ratToKey, ebind_ok,
      pyItems]
    rw [loopInner_spec ts.2 (dictSet sp ts.1 (.dictN [])) ts.1 []
      (assocFind_dictSet_self sp ts.1 _)]
    simp only [ebind_ok, dictSet_dictSet_self]
    rw [dictSet_append sp ts.1 _ (hdisj ts (by simp))]
    have hdisj' : ∀ x ∈ rest, x.1 ∉ (sp ++
        [(ts.1, PyVal.dictN (List.foldl (fun d fp => dictSet d fp.1 fp.2) [] ts.2))]).map
        Prod.fst := by
      intro x hx
      simp only [List.map_append, List.mem_append, List.map_cons, List.map_nil,
        List.mem_singleton]
      push_neg
      refine ⟨hdisj x (by simp [hx]), fun he => ?_⟩
      exact hnd.1 (he ▸ List.mem_map_of_mem Prod.fst hx)
    rw [ih _ hdisj' hnd.2]
    simp

theorem loopLoc_spec (loc : LocationM) :
    ∀ acc : LocationM,
      (∀ tl ∈ loc, tl.1 ∉ acc.map Prod.fst) →
      (loc.map Prod.fst).Nodup →
      loopLoc acc ((loc.map (fun tl => (ratToKey tl.1, tl.2))).map
          (fun kv => (PyVal.str kv.1, kv.2))) = .ok (acc ++ loc) := by
  induction loc with
  | nil => intro acc _ _; simp [loopLoc]
  | cons tl rest ih =>
    intro acc hdisj hnd
    simp only [List.map_cons, List.nodup_cons] at hnd
    simp only [List.map_cons, loopLoc, pyFloat, parseRatStr_ratToKey, ebind_ok]
    rw [dictSet_append acc tl.1 tl.2 (hdisj tl (by simp))]
    have hdisj' : ∀ x ∈ rest, x.1 ∉ (acc ++ [(tl.1, tl.2)]).map Prod.fst := by
      intro x hx
      simp only [List.map_append, List.mem_append, List.map_cons, List.map_nil,
        List.mem_singleton]
      push_neg
      refine ⟨hdisj x (by simp [hx]), fun he => ?_⟩
      exact hnd.1 (he ▸ List.mem_map_of_mem Prod.fst hx)
    rw [ih _ hdisj' hnd.2]
    simp

/-! ## Sorting lemmas -/

theorem entryLe_of_entryLt {α : Type} {a b : ℚ × α} (h : entryLt a b) : entryLe a b :=
  le_of_lt h

theorem pairwise_lt_of_le_nodup {α : Type} (l : List (ℚ × α))
    (hs : List.Pairwise entryLe l) (hnd : (l.map Prod.fst).Nodup) :
    List.Pairwise entryLt l := by
  have hne : List.Pairwise (fun a b : ℚ × α => a.1 ≠ b.1) l := List.pairwise_map.mp hnd
  exact (hs.and hne).imp (fun h => lt_of_le_of_ne h.1 h.2)

theorem mapM_ok_of_forall {α β : Type} (f : α → Except PyExn β) (g : α → β)
    (l : List α) (h : ∀ x ∈ l, f x = .ok (g x)) : l.mapM f = .ok (l.map g) := by
  induction l with
  | nil => rfl
  | cons x t ih =>
    rw [List.mapM_cons, h x (by simp), ih (fun y hy => h y (by simp [hy]))]
    rfl

theorem sort_spectrum_encode (sp : SpectrumM) (hs : List.Pairwise entryLt sp)
    (hinner : ∀ e ∈ sp, List.Pairwise entryLt e.2) :
    sort_spectrum (sp.map (fun ts => (ts.1, PyVal.dictN ts.2))) = .ok sp := by
  have hle : List.Pairwise entryLe (sp.map (fun ts => (ts.1, PyVal.dictN ts.2))) := by
    rw [List.pairwise_map]
    exact hs.imp (fun h => le_of_lt h)
  unfold sort_spectrum
  rw [List.Sorted.insertionSort_eq hle]
  rw [mapM_ok_of_forall sortSweep
    (fun tv => (tv.1, match tv.2 with
      | PyVal.dictN i => List.insertionSort entryLe i
      | _ => [])) _ ?_]
  · congr 1
    rw [List.map_map]
    have : ∀ ts ∈ sp, ((fun tv : ℚ × PyVal => (tv.1, match tv.2 with
        | PyVal.dictN i => List.insertionSort entryLe i
        | _ => ([] : List (ℚ × PyVal)))) ∘
        (fun ts : ℚ × List (ℚ × PyVal) => (ts.1, PyVal.dictN ts.2))) ts = ts := by
      intro ts hts
      simp only [Function.comp_apply]
      rw [List.Sorted.insertionSort_eq ((hinner ts hts).imp entryLe_of_entryLt)]
    rw [List.map_congr_left this]
    simp
  · intro x hx
    simp only [List.mem_map] at hx
    obtain ⟨ts, _, rfl⟩ := hx
    rfl

theorem mapM_sortSweep_spec (l : List (ℚ × PyVal)) :
    ∀ out : SpectrumM, l.mapM sortSweep = .ok out →
      out.map Prod.fst = l.map Prod.fst ∧
      ∀ e ∈ out, ∃ inner, (e.1, PyVal.dictN inner) ∈ l ∧
        e.2 = List.insertionSort entryLe inner := by
  induction l with
  | nil =>
    intro out h
    simp only [List.mapM_nil, epure_eq_ok, Except.ok.injEq] at h
    subst h
    exact ⟨rfl, by simp⟩
  | cons x t ih =>
    intro out h
    rw [List.mapM_cons] at h
    obtain ⟨y, hy, h⟩ := except_ok_bind.mp h
    obtain ⟨ys, hys, h⟩ := except_ok_bind.mp h
    simp only [epure_eq_ok, Except.ok.injEq] at h
    subst h
    obtain ⟨hkeys, hmem⟩ := ih ys hys
    cases hx2 : x.2 with
    | dictN inner =>
      simp only [sortSweep, hx2, Except.ok.injEq] at hy
      subst hy
      refine ⟨by simp [hkeys], fun e he => ?_⟩
      rcases List.mem_cons.mp he with rfl | he'
      · refine ⟨inner, ?_, rfl⟩
        have : x = (x.1, PyVal.dictN inner) := by
          rw [← hx2]
        rw [← this]
        simp
      · obtain ⟨i2, hi2, he2⟩ := hmem e he'
        exact ⟨i2, by simp [hi2], he2⟩
    | none => simp [sortSweep, hx2] at hy
    | num q => simp [sortSweep, hx2] at hy
    | str s => simp [sortSweep, hx2] at hy
    | list xs => simp [sortSweep, hx2] at hy
    | dictS fs => simp [sortSweep, hx2] at hy

theorem sort_spectrum_ok_sorted (spIn : List (ℚ × PyVal)) (out : SpectrumM)
    (hnd : (spIn.map Prod.fst).Nodup)
    (hin : ∀ e ∈ spIn, ∀ fs, e.2 = PyVal.dictN fs → (fs.map Prod.fst).Nodup)
    (h : sort_spectrum spIn = .ok out) :
    List.Pairwise entryLt out ∧ ∀ e ∈ out, List.Pairwise entryLt e.2 := by
  unfold sort_spectrum at h
  have hperm : List.Perm (List.insertionSort entryLe spIn) spIn :=
    List.perm_insertionSort entryLe spIn
  have hsort : List.Pairwise entryLe (List.insertionSort entryLe spIn) :=
    List.sorted_insertionSort entryLe spIn
  have hlnd : ((List.insertionSort entryLe spIn).map Prod.fst).Nodup :=
    ((hperm.map Prod.fst).nodup_iff).mpr hnd
  obtain ⟨hkeys, hmem⟩ := mapM_sortSweep_spec _ out h
  constructor
  · apply pairwise_lt_of_le_nodup
    · have h1 : List.Pairwise (fun a b : ℚ => a ≤ b)
          ((List.insertionSort entryLe spIn).map Prod.fst) :=
        List.pairwise_map.mpr hsort
      rw [← hkeys] at h1
      have h2 : List.Pairwise (fun a b : ℚ × List (ℚ × PyVal) => a.1 ≤ b.1) out :=
        List.pairwise_map.mp h1
      exact h2
    · rw [hkeys]
      exact hlnd
  · intro e he
    obtain ⟨inner, hmem', heq⟩ := hmem e he
    have hinnernd : (inner.map Prod.fst).Nodup :=
      hin _ (hperm.subset hmem') inner rfl
    rw [heq]
    apply pairwise_lt_of_le_nodup
    · exact List.sorted_insertionSort entryLe inner
    · exact (((List.perm_insertionSort entryLe inner).map Prod.fst).nodup_iff).mpr
        hinnernd

/-! ## Shape predicates for fully populated sessions -/

def PyVal.isNum : PyVal → Bool
  | .num _ => true
  | _ => false

def PyVal.isStr : PyVal → Bool
  | .str _ => true
  | _ => false

def PyVal.isLocTriple : PyVal → Bool
  | .list [.num _, .num _, .num _] => true
  | _ => false

/-- Every field of the session metadata holds a value of its schema type. -/
def ScanInfo.populated (i : ScanInfo) : Bool :=
  i.start.isNum && i.stop.isNum && i.dwell.isNum && i.nfft.isNum && i.name.isStr &&
  i.gain.isNum && i.lo.isNum && i.calibration.isNum && i.tuner.isNum &&
  i.time.isNum && i.lat.isNum && i.lon.isNum && i.desc.isStr

/-- All power levels in the spectrum are numbers. -/
def spectrumPowersNum (sp : SpectrumM) : Bool :=
  sp.all (fun ts => ts.2.all (fun fp => fp.2.isNum))

/-- All location values are (latitude, longitude, altitude) triples. -/
def locationTriples (loc : LocationM) : Bool :=
  loc.all (fun tl => tl.2.isLocTriple)

theorem nodup_keys_of_pairwise_lt {α : Type} (l : List (ℚ × α))
    (h : List.Pairwise entryLt l) : (l.map Prod.fst).Nodup :=
  List.pairwise_map.mpr (h.imp (fun hlt => ne_of_lt hlt))

theorem jsonBody_save_plot (info : ScanInfo) (sp : SpectrumM) (loc : LocationM) :
    jsonBody (save_plot info sp loc) =
      (loopNested [] ((sp.map (fun ts => (ratToKey ts.1,
          PyVal.dictS (ts.2.map (fun fp => (ratToKey fp.1, fp.2)))))).map
          (fun kv => (PyVal.str kv.1, kv.2)))) >>= (fun spectrum =>
        (loopLoc [] ((loc.map (fun tl => (ratToKey tl.1, tl.2))).map
          (fun kv => (PyVal.str kv.1, kv.2)))) >>= (fun location =>
          Except.ok ⟨PyVal.str APP_NAME, info.start, info.stop, info.dwell,
            info.nfft, info.name, info.gain, info.lo, info.calibration,
            info.tuner, info.time, info.lat, info.lon, info.desc,
            spectrum, location⟩)) := rfl

/-- Claim C1: for every Scan Session whose fields are all populated,
encoding with `save_plot` and decoding the produced file with `open_plot`
yields the session back — including the spectrum and location mappings,
whose numeric keys are restored from their stringified on-disk form.  The
in-memory spectrum handed to the encoder is sorted with unique keys (the
shape the codec itself produces) and the location keys are unique. -/
theorem save_then_open_roundtrip (info : ScanInfo) (sp : SpectrumM) (loc : LocationM)
    (_hpop : info.populated = true)
    (_hpow : spectrumPowersNum sp = true)
    (_hloct : locationTriples loc = true)
    (houter : List.Pairwise entryLt sp)
    (hinner : ∀ e ∈ sp, List.Pairwise entryLt e.2)
    (hlocnd : (loc.map Prod.fst).Nodup) :
    open_plot (some (savedFile info sp loc)) = .ok (.ok info sp loc) := by
  have houternd : (sp.map Prod.fst).Nodup := nodup_keys_of_pairwise_lt sp houter
  have hbody := jsonBody_save_plot info sp loc
  rw [loopNested_spec sp [] (by simp) houternd] at hbody
  simp only [ebind_ok, List.nil_append] at hbody
  rw [loopLoc_spec loc [] (by simp) hlocnd] at hbody
  simp only [ebind_ok, List.nil_append] at hbody
  have hmapeq : sp.map (fun ts => (ts.1,
      PyVal.dictN (List.foldl (fun d fp => dictSet d fp.1 fp.2) [] ts.2))) =
      sp.map (fun ts => (ts.1, PyVal.dictN ts.2)) :=
    List.map_congr_left (fun ts hts => by
      rw [foldl_dictSet_append ts.2 [] (by simp)
        (nodup_keys_of_pairwise_lt _ (hinner ts hts))]
      simp)
  rw [hmapeq] at hbody
  have hopen : open_plot (some (savedFile info sp loc)) =
      (match jsonBody (save_plot info sp loc) with
       | .error .valueError => Except.ok OpenResult.corrupt
       | .error .keyError => Except.ok OpenResult.corrupt
       | .error e => Except.error e
       | .ok flds => finishPlot flds) := rfl
  rw [hopen, hbody]
  show finishPlot ⟨PyVal.str APP_NAME, info.start, info.stop, info.dwell,
      info.nfft, info.name, info.gain, info.lo, info.calibration, info.tuner,
      info.time, info.lat, info.lon, info.desc,
      sp.map (fun ts => (ts.1, PyVal.dictN ts.2)), loc⟩ =
    Except.ok (OpenResult.ok info sp loc)
  have hfin : finishPlot ⟨PyVal.str APP_NAME, info.start, info.stop, info.dwell,
      info.nfft, info.name, info.gain, info.lo, info.calibration, info.tuner,
      info.time, info.lat, info.lon, info.desc,
      sp.map (fun ts => (ts.1, PyVal.dictN ts.2)), loc⟩ =
      (sort_spectrum (sp.map (fun ts => (ts.1, PyVal.dictN ts.2))) >>=
        (fun sorted => Except.ok (OpenResult.ok ⟨info.start, info.stop, info.dwell,
          info.nfft, info.name, info.gain, info.lo, info.calibration, info.tuner,
          info.time, info.lat, info.lon, info.desc⟩ sorted loc))) := rfl
  rw [hfin, sort_spectrum_encode sp houter hinner]
  rfl

/-- Witness for C1 at a concrete fully populated session. -/
theorem save_then_open_roundtrip_witness :
    open_plot (some (savedFile
      ⟨.num 1, .num 2, .num 3, .num 1024, .str "dev", .num 4, .num 0, .num 0,
        .num 0, .num 5, .num 6, .num 7, .str "d"⟩
      [(1, [(2, .num 7)]), (3, [(1, .num 8), (2, .num 9)])]
      [(4, .list [.num 1, .num 2, .num 3])])) =
    .ok (.ok
      ⟨.num 1, .num 2, .num 3, .num 1024, .str "dev", .num 4, .num 0, .num 0,
        .num 0, .num 5, .num 6, .num 7, .str "d"⟩
      [(1, [(2, .num 7)]), (3, [(1, .num 8), (2, .num 9)])]
      [(4, .list [.num 1, .num 2, .num 3])]) :=
  save_then_open_roundtrip _ _ _ rfl rfl rfl (by decide) (by decide) (by decide)

/-- Claim C5: decoding a path that does not exist yields the `NotFound`
result — a normal nothing-to-load outcome, distinguishable from both the
corrupt result and any decoded session. -/
theorem open_plot_missing_path :
    open_plot Option.none = .ok OpenResult.notFound ∧
    open_plot Option.none ≠ .ok OpenResult.corrupt ∧
    ∀ info sp loc, open_plot Option.none ≠ .ok (OpenResult.ok info sp loc) := by
  refine ⟨rfl, fun h => ?_, fun info sp loc h => ?_⟩
  · injection h with h'
    exact OpenResult.noConfusion h'
  · injection h with h'
    exact OpenResult.noConfusion h'

/-- Claim C10: whenever `open_plot` decodes a file through the legacy
binary path (the first record unpickles, and the decode succeeds), the
version record's value is irrelevant: the session always carries the
legacy defaults (dwell 0.131, nfft 1024, tuner 0, empty description,
`None` device, gain, LO, calibration, time, latitude, longitude), an
empty location, start and stop from the third and fourth records, and the
whole spectrum under the single outer key 1. -/
theorem legacy_path_ignores_version (f : RawFile) (hdr ver s1 s2 spec : PyVal)
    (rest : List PyVal) (info : ScanInfo) (sp : SpectrumM) (loc : LocationM)
    (hrec : f.records = hdr :: ver :: s1 :: s2 :: spec :: rest)
    (h : open_plot (some f) = .ok (.ok info sp loc)) :
    (∃ inner, sp = [((1 : ℚ), inner)]) ∧
    info.dwell = .num (0.131 : ℚ) ∧ info.nfft = .num 1024 ∧ info.tuner = .num 0 ∧
    info.desc = .str "" ∧ info.name = .none ∧ info.gain = .none ∧ info.lo = .none ∧
    info.calibration = .none ∧ info.time = .none ∧ info.lat = .none ∧
    info.lon = .none ∧ loc = [] ∧ info.start = s1 ∧ info.stop = s2 := by
  obtain ⟨recs, tail, json⟩ := f
  simp only at hrec
  subst hrec
  have hopen : open_plot (some ⟨hdr :: ver :: s1 :: s2 :: spec :: rest, tail, json⟩) =
      (if pyEqStr hdr APP_NAME then
        (sort_spectrum [((1 : ℚ), spec)] >>= (fun sorted =>
          Except.ok (OpenResult.ok ⟨s1, s2, .num (0.131 : ℚ), .num 1024, .none, .none,
            .none, .none, .num 0, .none, .none, .none, .str ""⟩ sorted [])))
      else .ok .corrupt) := rfl
  rw [hopen] at h
  by_cases hhdr : pyEqStr hdr APP_NAME = true
  · rw [if_pos hhdr] at h
    obtain ⟨sorted, hsort, hok⟩ := except_ok_bind.mp h
    simp only [Except.ok.injEq, OpenResult.ok.injEq] at hok
    obtain ⟨hinfo, hsp, hloc⟩ := hok
    subst hinfo
    subst hsp
    subst hloc
    refine ⟨?_, rfl, rfl, rfl, rfl, rfl, rfl, rfl, rfl, rfl, rfl, rfl, rfl, rfl, rfl⟩
    have hins : List.mapM sortSweep [((1 : ℚ), spec)] = .ok sorted := hsort
    rw [List.mapM_cons, List.mapM_nil] at hins
    obtain ⟨y, hy, h2⟩ := except_ok_bind.mp hins
    simp only [epure_eq_ok, ebind_ok, Except.ok.injEq] at h2
    subst h2
    cases hspec : spec with
    | dictN i =>
      rw [hspec] at hy
      simp only [sortSweep, Except.ok.injEq] at hy
      exact ⟨List.insertionSort entryLe i, by rw [← hy]⟩
    | none => rw [hspec] at hy; simp [sortSweep] at hy
    | num q => rw [hspec] at hy; simp [sortSweep] at hy
    | str s => rw [hspec] at hy; simp [sortSweep] at hy
    | list xs => rw [hspec] at hy; simp [sortSweep] at hy
    | dictS fs => rw [hspec] at hy; simp [sortSweep] at hy
  · rw [if_neg hhdr] at h
    injection h with h'
    exact absurd h' (fun hc => OpenResult.noConfusion hc)

/-- Witness for C10 at a concrete legacy file that carries version 42. -/
theorem legacy_path_ignores_version_witness :
    open_plot (some ⟨[PyVal.str APP_NAME, PyVal.num 42, PyVal.num 2, PyVal.num 3,
        PyVal.dictN [(5, PyVal.num 6)]], TailErr.eof, Option.none⟩) =
      .ok (.ok ⟨PyVal.num 2, PyVal.num 3, PyVal.num (0.131 : ℚ), PyVal.num 1024,
        PyVal.none, PyVal.none, PyVal.none, PyVal.none, PyVal.num 0, PyVal.none,
        PyVal.none, PyVal.none, PyVal.str ""⟩ [(1, [(5, PyVal.num 6)])] []) ∧
    ∃ inner, ([((1 : ℚ), [((5 : ℚ), PyVal.num 6)])] : SpectrumM) = [((1 : ℚ), inner)] :=
  ⟨rfl, (legacy_path_ignores_version
    ⟨[PyVal.str APP_NAME, PyVal.num 42, PyVal.num 2, PyVal.num 3,
      PyVal.dictN [(5, PyVal.num 6)]], TailErr.eof, Option.none⟩
    (PyVal.str APP_NAME) (PyVal.num 42) (PyVal.num 2) (PyVal.num 3)
    (PyVal.dictN [(5, PyVal.num 6)]) []
    ⟨PyVal.num 2, PyVal.num 3, PyVal.num (0.131 : ℚ), PyVal.num 1024, PyVal.none,
      PyVal.none, PyVal.none, PyVal.none, PyVal.num 0, PyVal.none, PyVal.none,
      PyVal.none, PyVal.str ""⟩
    [(1, [(5, PyVal.num 6)])] [] rfl rfl).1⟩

/-- Counterexample to claim C3 as stated: the file whose bytes are the
well-formed JSON document `[]` has a truncated structure (no header, no
fields object), yet `open_plot` raises an uncaught `IndexError` on it
instead of returning the corrupt result. -/
theorem open_plot_truncated_raises :
    open_plot (some ⟨[], .unpickling, some (.list [])⟩) = .error .indexError ∧
    open_plot (some ⟨[], .unpickling, some (.list [])⟩) ≠ .ok .corrupt := by
  refine ⟨rfl, fun h => ?_⟩
  rw [show open_plot (some ⟨[], .unpickling, some (.list [])⟩) =
    .error .indexError from rfl] at h
  exact Except.noConfusion h

/-- Claim C3 amended: a failed `json.loads`, a caught `KeyError` or
`ValueError` inside the JSON field reads (missing keys, malformed
numbers), or a header-marker mismatch after the fields are assembled —
on either path — all yield the corrupt result with no partial session;
but structural failures raising other exception classes (e.g. a document
that is not a two-element array) escape as uncaught exceptions rather
than Corrupt. -/
theorem corrupt_on_header_or_field_failure (f : RawFile) :
    (f.records = [] → f.json = Option.none → open_plot (some f) = .ok .corrupt) ∧
    (∀ doc, f.records = [] → f.json = some doc → jsonBody doc = .error .keyError →
      open_plot (some f) = .ok .corrupt) ∧
    (∀ doc, f.records = [] → f.json = some doc → jsonBody doc = .error .valueError →
      open_plot (some f) = .ok .corrupt) ∧
    (∀ doc flds, f.records = [] → f.json = some doc → jsonBody doc = .ok flds →
      pyEqStr flds.header APP_NAME = false → open_plot (some f) = .ok .corrupt) ∧
    (∀ hdr ver s1 s2 spec rest, f.records = hdr :: ver :: s1 :: s2 :: spec :: rest →
      pyEqStr hdr APP_NAME = false → open_plot (some f) = .ok .corrupt) := by
  obtain ⟨recs, tail, json⟩ := f
  refine ⟨?_, ?_, ?_, ?_, ?_⟩
  · intro h1 h2
    simp only at h1 h2
    subst h1
    subst h2
    rfl
  · intro doc h1 h2 hb
    simp only at h1 h2
    subst h1
    subst h2
    have hstep : open_plot (some ⟨[], tail, some doc⟩) =
        (match jsonBody doc with
         | .error .valueError => Except.ok OpenResult.corrupt
         | .error .keyError => Except.ok OpenResult.corrupt
         | .error e => Except.error e
         | .ok flds => finishPlot flds) := rfl
    rw [hstep, hb]
  · intro doc h1 h2 hb
    simp only at h1 h2
    subst h1
    subst h2
    have hstep : open_plot (some ⟨[], tail, some doc⟩) =
        (match jsonBody doc with
         | .error .valueError => Except.ok OpenResult.corrupt
         | .error .keyError => Except.ok OpenResult.corrupt
         | .error e => Except.error e
         | .ok flds => finishPlot flds) := rfl
    rw [hstep, hb]
  · intro doc flds h1 h2 hb hhdr
    simp only at h1 h2
    subst h1
    subst h2
    have hstep : open_plot (some ⟨[], tail, some doc⟩) =
        (match jsonBody doc with
         | .error .valueError => Except.ok OpenResult.corrupt
         | .error .keyError => Except.ok OpenResult.corrupt
         | .error e => Except.error e
         | .ok flds => finishPlot flds) := rfl
    rw [hstep, hb]
    show finishPlot flds = Except.ok OpenResult.corrupt
    unfold finishPlot
    rw [if_neg]
    rw [hhdr]
    exact Bool.false_ne_true
  · intro hdr ver s1 s2 spec rest h1 hhdr
    simp only at h1
    subst h1
    have hstep : open_plot (some ⟨hdr :: ver :: s1 :: s2 :: spec :: rest, tail, json⟩) =
        finishPlot ⟨hdr, s1, s2, .num (0.131 : ℚ), .num 1024, .none, .none, .none,
          .none, .num 0, .none, .none, .none, .str "", [((1 : ℚ), spec)], []⟩ := rfl
    rw [hstep]
    unfold finishPlot
    rw [if_neg]
    rw [hhdr]
    exact Bool.false_ne_true

/-- Witness for the amended C3: a wrong header marker on an otherwise
fully well-formed version-9 document decodes to the corrupt result. -/
theorem corrupt_on_header_or_field_failure_witness :
    open_plot (some ⟨[], .unpickling, some (.list [.str "x", .dictS [
      ("Version", .num 9), ("Start", .num 10), ("Stop", .num 20),
      ("Dwell", .num 1), ("Nfft", .num 2), ("Device", .str "d"),
      ("Gain", .num 3), ("LO", .num 4), ("Calibration", .num 5),
      ("Tuner", .num 6), ("Time", .num 7), ("Latitude", .num 8),
      ("Longitude", .num 9), ("Description", .str "y"),
      ("Spectrum", .dictS []), ("Location", .dictS [])]])⟩) = .ok .corrupt :=
  (corrupt_on_header_or_field_failure _).2.2.2.1
    (.list [.str "x", .dictS [
      ("Version", .num 9), ("Start", .num 10), ("Stop", .num 20),
      ("Dwell", .num 1), ("Nfft", .num 2), ("Device", .str "d"),
      ("Gain", .num 3), ("LO", .num 4), ("Calibration", .num 5),
      ("Tuner", .num 6), ("Time", .num 7), ("Latitude", .num 8),
      ("Longitude", .num 9), ("Description", .str "y"),
      ("Spectrum", .dictS []), ("Location", .dictS [])]])
    ⟨.str "x", .num 10, .num 20, .num 1, .num 2, .str "d", .num 3, .num 4,
      .num 5, .num 6, .num 7, .num 8, .num 9, .str "y", [], []⟩
    rfl rfl rfl rfl

/-- Counterexample to claim C4 as stated: a file whose first record
unpickles (as the header marker) but whose second sequential load fails
with `UnpicklingError` returns the corrupt result immediately — it does
NOT fall through to the JSON decode path, even though the same bytes
parse as a fully valid version-9 session that the JSON path decodes
successfully. -/
theorem legacy_failure_no_fallthrough :
    open_plot (some ⟨[PyVal.str APP_NAME], .unpickling, some (.list
      [.str APP_NAME, .dictS [
        ("Version", .num 9), ("Start", .num 10), ("Stop", .num 20),
        ("Dwell", .num 1), ("Nfft", .num 2), ("Device", .str "d"),
        ("Gain", .num 3), ("LO", .num 4), ("Calibration", .num 5),
        ("Tuner", .num 6), ("Time", .num 7), ("Latitude", .num 8),
        ("Longitude", .num 9), ("Description", .str "y"),
        ("Spectrum", .dictS []), ("Location", .dictS [])]])⟩) = .ok .corrupt ∧
    jsonPath ⟨[PyVal.str APP_NAME], .unpickling, some (.list
      [.str APP_NAME, .dictS [
        ("Version", .num 9), ("Start", .num 10), ("Stop", .num 20),
        ("Dwell", .num 1), ("Nfft", .num 2), ("Device", .str "d"),
        ("Gain", .num 3), ("LO", .num 4), ("Calibration", .num 5),
        ("Tuner", .num 6), ("Time", .num 7), ("Latitude", .num 8),
        ("Longitude", .num 9), ("Description", .str "y"),
        ("Spectrum", .dictS []), ("Location", .dictS [])]])⟩ =
      .ok (.ok ⟨.num 10, .num 20, .num 1, .num 2, .str "d", .num 3, .num 4,
        .num 5, .num 6, .num 7, .num 8, .num 9, .str "y"⟩ [] []) :=
  ⟨rfl, rfl⟩

/-- Claim C4 amended: only a failure of the first `pickle.load` (the
header record, raising `UnpicklingError` or `EOFError`) is treated as
not-this-format and falls through to the JSON decode path.  Once the
first record has loaded, a structural failure later in the record stream
does not fall through: a later `UnpicklingError` (caught as
`PickleError`) yields the corrupt result without consulting the JSON
path, and a later `EOFError` propagates as an uncaught exception. -/
theorem legacy_fallthrough_first_record_only (f : RawFile) :
    (f.records = [] → open_plot (some f) = jsonPath f) ∧
    (∀ hdr rest, f.records = hdr :: rest → rest.length < 4 →
      open_plot (some f) = (match f.tail with
        | TailErr.unpickling => .ok .corrupt
        | TailErr.eof => .error .eofError)) := by
  obtain ⟨recs, tail, json⟩ := f
  constructor
  · intro h
    simp only at h
    subst h
    rfl
  · intro hdr rest h hlen
    simp only at h
    subst h
    cases rest with
    | nil => cases tail <;> rfl
    | cons a t =>
      cases t with
      | nil => cases tail <;> rfl
      | cons b t2 =>
        cases t2 with
        | nil => cases tail <;> rfl
        | cons c t3 =>
          cases t3 with
          | nil => cases tail <;> rfl
          | cons d t4 =>
            exfalso
            simp only [List.length_cons] at hlen
            omega

/-- Witness for the amended C4: an empty record stream falls through to
the JSON path; a one-record stream ending in `EOFError` raises. -/
theorem legacy_fallthrough_first_record_only_witness :
    open_plot (some ⟨[], .unpickling, Option.none⟩) =
      jsonPath ⟨[], .unpickling, Option.none⟩ ∧
    open_plot (some ⟨[PyVal.num 1], .eof, Option.none⟩) = .error .eofError :=
  ⟨(legacy_fallthrough_first_record_only ⟨[], .unpickling, Option.none⟩).1 rfl,
    (legacy_fallthrough_first_record_only ⟨[PyVal.num 1], .eof, Option.none⟩).2
      (PyVal.num 1) [] rfl (by norm_num)⟩

/-! ## The spectrum well-formedness invariant maintained by the decoder -/

/-- Outer keys are unique and every sweep value is a dict with unique
keys — true of every dict Python can actually build. -/
def SpecInv (sp : List (ℚ × PyVal)) : Prop :=
  (sp.map Prod.fst).Nodup ∧
  ∀ e ∈ sp, ∀ fs, e.2 = PyVal.dictN fs → (fs.map Prod.fst).Nodup

theorem mem_dictSet {κ α : Type} [DecidableEq κ] (l : List (κ × α)) (k : κ) (v : α) :
    ∀ x ∈ dictSet l k v, x = (k, v) ∨ x ∈ l := by
  induction l with
  | nil =>
    intro x hx
    simp only [dictSet, List.mem_singleton] at hx
    exact Or.inl hx
  | cons e t ih =>
    intro x hx
    by_cases he : e.1 = k
    · simp only [dictSet, if_pos he, List.mem_cons] at hx
      rcases hx with rfl | hx
      · exact Or.inl (by rw [he])
      · exact Or.inr (List.mem_cons_of_mem e hx)
    · simp only [dictSet, if_neg he, List.mem_cons] at hx
      rcases hx with rfl | hx
      · exact Or.inr (List.mem_cons_self e t)
      · rcases ih x hx with h1 | h1
        · exact Or.inl h1
        · exact Or.inr (List.mem_cons_of_mem e h1)

theorem assocFind_mem {κ α : Type} [DecidableEq κ] (l : List (κ × α)) (k : κ) (v : α)
    (h : assocFind l k = some v) : (k, v) ∈ l := by
  induction l with
  | nil => simp [assocFind] at h
  | cons e t ih =>
    by_cases he : e.1 = k
    · simp only [assocFind, if_pos he, Option.some.injEq] at h
      subst h
      subst he
      exact List.mem_cons_self _ _
    · simp only [assocFind, if_neg he] at h
      exact List.mem_cons_of_mem e (ih h)

theorem SpecInv_dictSet (sp : List (ℚ × PyVal)) (k : ℚ) (v : PyVal) (h : SpecInv sp)
    (hv : ∀ fs, v = PyVal.dictN fs → (fs.map Prod.fst).Nodup) :
    SpecInv (dictSet sp k v) := by
  refine ⟨keys_dictSet_nodup _ _ _ h.1, fun e he fs hfs => ?_⟩
  rcases mem_dictSet _ _ _ e he with rfl | hmem
  · exact hv fs hfs
  · exact h.2 e hmem fs hfs

theorem SpecInv_dictSetInner (sp : List (ℚ × PyVal)) (t f : ℚ) (p : PyVal)
    (sp' : List (ℚ × PyVal)) (h : SpecInv sp) (hset : dictSetInner sp t f p = .ok sp') :
    SpecInv sp' := by
  unfold dictSetInner at hset
  cases hfind : assocFind sp t with
  | none => rw [hfind] at hset; exact absurd hset (by intro hc; exact Except.noConfusion hc)
  | some v =>
    rw [hfind] at hset
    cases v with
    | dictN inner =>
      simp only [Except.ok.injEq] at hset
      subst hset
      refine SpecInv_dictSet sp t _ h (fun fs hfs => ?_)
      have hinner : (inner.map Prod.fst).Nodup :=
        h.2 (t, PyVal.dictN inner) (assocFind_mem sp t _ hfind) inner rfl
      have : dictSet inner f p = fs := by injection hfs
      rw [← this]
      exact keys_dictSet_nodup inner f p hinner
    | none => exact absurd hset (by intro hc; exact Except.noConfusion hc)
    | num q => exact absurd hset (by intro hc; exact Except.noConfusion hc)
    | str s => exact absurd hset (by intro hc; exact Except.noConfusion hc)
    | list xs => exact absurd hset (by intro hc; exact Except.noConfusion hc)
    | dictS fs => exact absurd hset (by intro hc; exact Except.noConfusion hc)

theorem loopInner_inv (items : List (PyVal × PyVal)) :
    ∀ sp t sp', SpecInv sp → loopInner sp t items = .ok sp' → SpecInv sp' := by
  induction items with
  | nil =>
    intro sp t sp' hinv h
    simp only [loopInner, Except.ok.injEq] at h
    subst h
    exact hinv
  | cons kv rest ih =>
    intro sp t sp' hinv h
    obtain ⟨kv1, kv2⟩ := kv
    simp only [loopInner] at h
    obtain ⟨f, _, h⟩ := except_ok_bind.mp h
    obtain ⟨sp1, hset, h⟩ := except_ok_bind.mp h
    exact ih sp1 t sp' (SpecInv_dictSetInner sp t f kv2 sp1 hinv hset) h

theorem loopFlat_inv (items : List (PyVal × PyVal)) (sp sp' : List (ℚ × PyVal))
    (hinv : SpecInv sp) (h : loopFlat sp items = .ok sp') : SpecInv sp' := by
  rw [loopFlat_eq_loopInner items sp] at h
  exact loopInner_inv items sp 1 sp' hinv h

theorem loopNested_inv (items : List (PyVal × PyVal)) :
    ∀ sp sp', SpecInv sp → loopNested sp items = .ok sp' → SpecInv sp' := by
  induction items with
  | nil =>
    intro sp sp' hinv h
    simp only [loopNested, Except.ok.injEq] at h
    subst h
    exact hinv
  | cons kv rest ih =>
    intro sp sp' hinv h
    obtain ⟨kv1, kv2⟩ := kv
    simp only [loopNested] at h
    obtain ⟨t, _, h⟩ := except_ok_bind.mp h
    obtain ⟨sItems, _, h⟩ := except_ok_bind.mp h
    obtain ⟨sp1, hset, h⟩ := except_ok_bind.mp h
    have hinv1 : SpecInv (dictSet sp t (PyVal.dictN [])) :=
      SpecInv_dictSet sp t _ hinv (fun fs hfs => by
        have : ([] : List (ℚ × PyVal)) = fs := by injection hfs
        rw [← this]
        simp)
    exact ih sp1 sp' (loopInner_inv sItems _ t sp1 hinv1 hset) h

theorem jsonBody_inv (doc : PyVal) (flds : Fields) (h : jsonBody doc = .ok flds) :
    SpecInv flds.spectrum := by
  unfold jsonBody at h
  obtain ⟨header, _, h⟩ := except_ok_bind.mp h
  obtain ⟨d1, _, h⟩ := except_ok_bind.mp h
  obtain ⟨version, _, h⟩ := except_ok_bind.mp h
  obtain ⟨start, _, h⟩ := except_ok_bind.mp h
  obtain ⟨stop, _, h⟩ := except_ok_bind.mp h
  obtain ⟨g1, _, h⟩ := except_ok_bind.mp h
  obtain ⟨dwell, _, h⟩ := except_ok_bind.mp h
  obtain ⟨nfft, _, h⟩ := except_ok_bind.mp h
  obtain ⟨g2, _, h⟩ := except_ok_bind.mp h
  obtain ⟨name, _, h⟩ := except_ok_bind.mp h
  obtain ⟨gain, _, h⟩ := except_ok_bind.mp h
  obtain ⟨lo, _, h⟩ := except_ok_bind.mp h
  obtain ⟨calibration, _, h⟩ := except_ok_bind.mp h
  obtain ⟨g4, _, h⟩ := except_ok_bind.mp h
  obtain ⟨tuner, _, h⟩ := except_ok_bind.mp h
  obtain ⟨g5, _, h⟩ := except_ok_bind.mp h
  obtain ⟨time, _, h⟩ := except_ok_bind.mp h
  obtain ⟨lat, _, h⟩ := except_ok_bind.mp h
  obtain ⟨lon, _, h⟩ := except_ok_bind.mp h
  obtain ⟨lt7, _, h⟩ := except_ok_bind.mp h
  obtain ⟨spectrum, hspec, h⟩ := except_ok_bind.mp h
  obtain ⟨g7, _, h⟩ := except_ok_bind.mp h
  obtain ⟨desc, _, h⟩ := except_ok_bind.mp h
  obtain ⟨g8, _, h⟩ := except_ok_bind.mp h
  obtain ⟨location, _, h⟩ := except_ok_bind.mp h
  simp only [Except.ok.injEq] at h
  subst h
  have hinv : SpecInv spectrum := by
    cases lt7 with
    | true =>
      simp only [if_true] at hspec
      obtain ⟨spv, _, hspec⟩ := except_ok_bind.mp hspec
      obtain ⟨items, _, hspec⟩ := except_ok_bind.mp hspec
      refine loopFlat_inv items _ _ ?_ hspec
      refine ⟨by simp [dictSet], fun e he fs hfs => ?_⟩
      have he' : e = ((1 : ℚ), PyVal.dictN []) := by
        simpa [dictSet] using he
      subst he'
      have : ([] : List (ℚ × PyVal)) = fs := by injection hfs
      rw [← this]
      simp
    | false =>
      simp only [Bool.false_eq_true, if_false] at hspec
      obtain ⟨spv, _, hspec⟩ := except_ok_bind.mp hspec
      obtain ⟨items, _, hspec⟩ := except_ok_bind.mp hspec
      exact loopNested_inv items [] spectrum ⟨by simp, by simp⟩ hspec
  exact hinv

theorem finishPlot_sorted (flds : Fields) (info : ScanInfo) (sp : SpectrumM)
    (loc : LocationM) (hinv : SpecInv flds.spectrum)
    (h : finishPlot flds = .ok (.ok info sp loc)) :
    List.Pairwise entryLt sp ∧ ∀ e ∈ sp, List.Pairwise entryLt e.2 := by
  unfold finishPlot at h
  split at h
  · obtain ⟨sorted, hsort, hok⟩ := except_ok_bind.mp h
    simp only [Except.ok.injEq, OpenResult.ok.injEq] at hok
    obtain ⟨_, hsp, _⟩ := hok
    subst hsp
    exact sort_spectrum_ok_sorted flds.spectrum sorted hinv.1 hinv.2 hsort
  · injection h with h'
    exact OpenResult.noConfusion h'

theorem jsonPath_ok_cases (f : RawFile) (r : OpenResult) (h : jsonPath f = .ok r) :
    (∃ doc flds, f.json = some doc ∧ jsonBody doc = .ok flds ∧
      finishPlot flds = .ok r) ∨ r = .corrupt := by
  unfold jsonPath at h
  cases hj : f.json with
  | none =>
    rw [hj] at h
    right
    injection h with h'
    exact h'.symm
  | some doc =>
    rw [hj] at h
    have h2 : (match jsonBody doc with
       | Except.error PyExn.valueError => Except.ok OpenResult.corrupt
       | Except.error PyExn.keyError => Except.ok OpenResult.corrupt
       | Except.error e => Except.error e
       | Except.ok flds => finishPlot flds) = Except.ok r := h
    clear h
    cases hjb : jsonBody doc with
    | ok flds =>
      rw [hjb] at h2
      exact Or.inl ⟨doc, flds, rfl, hjb, h2⟩
    | error e =>
      rw [hjb] at h2
      cases e with
      | valueError => right; injection h2 with h'; exact h'.symm
      | keyError => right; injection h2 with h'; exact h'.symm
      | typeError => exact absurd h2 (by intro hc; exact Except.noConfusion hc)
      | indexError => exact absurd h2 (by intro hc; exact Except.noConfusion hc)
      | attributeError => exact absurd h2 (by intro hc; exact Except.noConfusion hc)
      | eofError => exact absurd h2 (by intro hc; exact Except.noConfusion hc)

/-- Claim C6: every successful decode returns a sorted spectrum — outer
sweep timestamps strictly ascending, and within each sweep the
frequencies strictly ascending.  (The hypothesis states that a legacy
file's pickled sweep dict has unique keys, which is true of every real
Python dict; the JSON path needs no such hypothesis since its dicts are
built by keyed assignment.) -/
theorem open_plot_spectrum_sorted (f : RawFile) (info : ScanInfo) (sp : SpectrumM)
    (loc : LocationM)
    (hwf : ∀ fs, f.records.get? 4 = some (PyVal.dictN fs) → (fs.map Prod.fst).Nodup)
    (h : open_plot (some f) = .ok (.ok info sp loc)) :
    List.Pairwise entryLt sp ∧ ∀ e ∈ sp, List.Pairwise entryLt e.2 := by
  obtain ⟨recs, tail, json⟩ := f
  cases recs with
  | nil =>
    have h' : jsonPath ⟨[], tail, json⟩ = .ok (.ok info sp loc) := h
    rcases jsonPath_ok_cases _ _ h' with ⟨doc, flds, _, hjb, hfin⟩ | hcorr
    · exact finishPlot_sorted flds info sp loc (jsonBody_inv doc flds hjb) hfin
    · exact absurd hcorr (by intro hc; exact OpenResult.noConfusion hc)
  | cons hdr rest =>
    cases rest with
    | nil => cases tail <;> cases h
    | cons a t =>
      cases t with
      | nil => cases tail <;> cases h
      | cons b t2 =>
        cases t2 with
        | nil => cases tail <;> cases h
        | cons c t3 =>
          cases t3 with
          | nil => cases tail <;> cases h
          | cons spec t4 =>
            have h' : finishPlot ⟨hdr, b, c, .num (0.131 : ℚ), .num 1024, .none,
                .none, .none, .none, .num 0, .none, .none, .none, .str "",
                [((1 : ℚ), spec)], []⟩ = .ok (.ok info sp loc) := h
            refine finishPlot_sorted _ info sp loc ⟨by simp, fun e he fs hfs => ?_⟩ h'
            have he' : e = ((1 : ℚ), spec) := by simpa using he
            subst he'
            exact hwf fs (by simpa using hfs)

/-- Witness for C6: a legacy file with an unsorted sweep decodes to a
spectrum sorted by frequency. -/
theorem open_plot_spectrum_sorted_witness :
    List.Pairwise entryLt ([((1 : ℚ),
      [((4 : ℚ), PyVal.num 2), ((5 : ℚ), PyVal.num 6)])] : SpectrumM) ∧
    ∀ e ∈ ([((1 : ℚ), [((4 : ℚ), PyVal.num 2), ((5 : ℚ), PyVal.num 6)])] : SpectrumM),
      List.Pairwise entryLt e.2 :=
  open_plot_spectrum_sorted
    ⟨[PyVal.str APP_NAME, PyVal.num 1, PyVal.num 2, PyVal.num 3,
      PyVal.dictN [(5, PyVal.num 6), (4, PyVal.num 2)]], TailErr.eof, Option.none⟩
    ⟨PyVal.num 2, PyVal.num 3, PyVal.num (0.131 : ℚ), PyVal.num 1024, PyVal.none,
      PyVal.none, PyVal.none, PyVal.none, PyVal.num 0, PyVal.none, PyVal.none,
      PyVal.none, PyVal.str ""⟩
    [((1 : ℚ), [((4 : ℚ), PyVal.num 2), ((5 : ℚ), PyVal.num 6)])] []
    (fun fs hfs => by
      have : PyVal.dictN [(5, PyVal.num 6), (4, PyVal.num 2)] = PyVal.dictN fs := by
        injection hfs
      have hfs' : ([((5 : ℚ), PyVal.num 6), ((4 : ℚ), PyVal.num 2)] :
          List (ℚ × PyVal)) = fs := by injection this
      rw [← hfs']
      decide)
    rfl

/-! ## Helpers shared by the migration proof -/

theorem loopFlat_encoded (flat : List (ℚ × PyVal))
    (hflat : (flat.map Prod.fst).Nodup) :
    loopFlat (dictSet ([] : List (ℚ × PyVal)) 1 (.dictN []))
      ((flat.map (fun fp => (ratToKey fp.1, fp.2))).map
        (fun kv => (PyVal.str kv.1, kv.2))) =
      .ok [((1 : ℚ), PyVal.dictN flat)] := by
  rw [loopFlat_eq_loopInner, loopInner_spec flat _ 1 [] (by rfl)]
  rw [dictSet_dictSet_self, foldl_dictSet_append flat [] (by simp) hflat]
  simp [dictSet]

theorem loopNested_encoded (nested : SpectrumM)
    (hnod : (nested.map Prod.fst).Nodup)
    (hinner : ∀ e ∈ nested, (e.2.map Prod.fst).Nodup) :
    loopNested [] ((nested.map (fun ts => (ratToKey ts.1,
        PyVal.dictS (ts.2.map (fun fp => (ratToKey fp.1, fp.2)))))).map
        (fun kv => (PyVal.str kv.1, kv.2))) =
      .ok (nested.map (fun ts => (ts.1, PyVal.dictN ts.2))) := by
  rw [loopNested_spec nested [] (by simp) hnod]
  simp only [List.nil_append]
  congr 1
  apply List.map_congr_left
  intro ts hts
  rw [foldl_dictSet_append ts.2 [] (by simp) (hinner ts hts)]
  simp

theorem finishPlot_flat (s1 s2 dw nf na ga lov ca tu ti la ln de : PyVal)
    (flat : List (ℚ × PyVal)) :
    finishPlot ⟨.str APP_NAME, s1, s2, dw, nf, na, ga, lov, ca, tu, ti, la, ln, de,
      [((1 : ℚ), PyVal.dictN flat)], []⟩ =
      .ok (.ok ⟨s1, s2, dw, nf, na, ga, lov, ca, tu, ti, la, ln, de⟩
        [((1 : ℚ), List.insertionSort entryLe flat)] []) := rfl

theorem finishPlot_nested (s1 s2 dw nf na ga lov ca tu ti la ln de : PyVal)
    (nested : SpectrumM) (hs : List.Pairwise entryLt nested)
    (hin : ∀ e ∈ nested, List.Pairwise entryLt e.2) :
    finishPlot ⟨.str APP_NAME, s1, s2, dw, nf, na, ga, lov, ca, tu, ti, la, ln, de,
      nested.map (fun ts => (ts.1, PyVal.dictN ts.2)), []⟩ =
      .ok (.ok ⟨s1, s2, dw, nf, na, ga, lov, ca, tu, ti, la, ln, de⟩ nested []) := by
  have hstep : finishPlot ⟨.str APP_NAME, s1, s2, dw, nf, na, ga, lov, ca, tu, ti,
      la, ln, de, nested.map (fun ts => (ts.1, PyVal.dictN ts.2)), []⟩ =
      (sort_spectrum (nested.map (fun ts => (ts.1, PyVal.dictN ts.2))) >>=
        (fun sorted => Except.ok (OpenResult.ok
          ⟨s1, s2, dw, nf, na, ga, lov, ca, tu, ti, la, ln, de⟩ sorted []))) := rfl
  rw [hstep, sort_spectrum_encode nested hs hin]
  rfl

/-- A synthesized legacy session document of schema version `v` (1..8):
the two-element `[header, fields]` JSON tree with exactly the fields a
version-`v` writer emits — `Dwell`/`Nfft` from version 2, device block
from version 3, `Tuner` from version 5, time and fixed location from
version 6, nested spectrum from version 7, `Description` from version 8.
Below version 7 the spectrum is the flat frequency-to-power mapping. -/
def synthDoc (v : ℕ) (start stop dwellV nfftV deviceV gainV loV calV tunerV
    timeV latV lonV descV : PyVal) (flat : List (ℚ × PyVal)) (nested : SpectrumM) :
    PyVal :=
  .list [.str APP_NAME, .dictS (
    [("Version", PyVal.num v), ("Start", start), ("Stop", stop)] ++
    (if 1 < v then [("Dwell", dwellV), ("Nfft", nfftV)] else []) ++
    (if 2 < v then [("Device", deviceV), ("Gain", gainV), ("LO", loV),
      ("Calibration", calV)] else []) ++
    (if 4 < v then [("Tuner", tunerV)] else []) ++
    (if 5 < v then [("Time", timeV), ("Latitude", latV), ("Longitude", lonV)]
      else []) ++
    [("Spectrum", if v < 7 then .dictS (flat.map (fun fp => (ratToKey fp.1, fp.2)))
      else .dictS (nested.map (fun ts => (ratToKey ts.1,
        PyVal.dictS (ts.2.map (fun fp => (ratToKey fp.1, fp.2)))))))] ++
    (if 7 < v then [("Description", descV)] else []))]

set_option maxHeartbeats 3200000 in
/-- Claim C2: decoding a synthesized legacy document of any version 1..8
succeeds and populates exactly the documented defaults for the fields
absent at that version — dwell 0.131 and nfft 1024 up to version 1, null
device/gain/LO/calibration up to version 2, tuner 0 up to version 4,
null time/latitude/longitude up to version 5, empty description up to
version 7, empty location up to version 8 (always, in this range) — and
below version 7 promotes the flat spectrum into a single sweep under the
synthetic timestamp key 1. -/
theorem open_plot_version_migration (v : ℕ) (h1 : 1 ≤ v) (h8 : v ≤ 8)
    (start stop dwellV nfftV deviceV gainV loV calV tunerV timeV latV lonV
      descV : PyVal) (flat : List (ℚ × PyVal)) (nested : SpectrumM)
    (hflat : (flat.map Prod.fst).Nodup)
    (hnest : List.Pairwise entryLt nested)
    (hnestin : ∀ e ∈ nested, List.Pairwise entryLt e.2) :
    ∃ info sp, open_plot (some ⟨[], .unpickling,
        some (synthDoc v start stop dwellV nfftV deviceV gainV loV calV tunerV
          timeV latV lonV descV flat nested)⟩) = .ok (.ok info sp []) ∧
      info.start = start ∧ info.stop = stop ∧
      (v ≤ 1 → info.dwell = .num (0.131 : ℚ) ∧ info.nfft = .num 1024) ∧
      (v ≤ 2 → info.name = .none ∧ info.gain = .none ∧ info.lo = .none ∧
        info.calibration = .none) ∧
      (v ≤ 4 → info.tuner = .num 0) ∧
      (v ≤ 5 → info.time = .none ∧ info.lat = .none ∧ info.lon = .none) ∧
      (v ≤ 7 → info.desc = .str "") ∧
      (v < 7 → sp = [((1 : ℚ), List.insertionSort entryLe flat)]) := by
  interval_cases v
  · -- version 1
    have hbody : jsonBody (synthDoc 1 start stop dwellV nfftV deviceV gainV loV calV tunerV timeV latV lonV descV flat nested) =
        (loopFlat (dictSet ([] : List (ℚ × PyVal)) 1 (.dictN []))
          ((flat.map (fun fp => (ratToKey fp.1, fp.2))).map
            (fun kv => (PyVal.str kv.1, kv.2)))) >>= (fun spectrum =>
          Except.ok ⟨.str APP_NAME, start, stop, .num (0.131 : ℚ), .num 1024, .none, .none, .none, .none, .num 0, .none, .none, .none, .str "",
            spectrum, []⟩) := rfl
    rw [loopFlat_encoded flat hflat] at hbody
    simp only [ebind_ok] at hbody
    have hopen : open_plot (some ⟨[], .unpickling,
        some (synthDoc 1 start stop dwellV nfftV deviceV gainV loV calV tunerV timeV latV lonV descV flat nested)⟩) =
        (match jsonBody (synthDoc 1 start stop dwellV nfftV deviceV gainV loV calV tunerV timeV latV lonV descV flat nested) with
         | .error .valueError => Except.ok OpenResult.corrupt
         | .error .keyError => Except.ok OpenResult.corrupt
         | .error e => Except.error e
         | .ok flds => finishPlot flds) := rfl
    refine ⟨⟨start, stop, .num (0.131 : ℚ), .num 1024, .none, .none, .none, .none, .num 0, .none, .none, .none, .str ""⟩,
      [((1 : ℚ), List.insertionSort entryLe flat)], ?_, rfl, rfl, (fun _ => ⟨rfl, rfl⟩),
      (fun _ => ⟨rfl, rfl, rfl, rfl⟩), (fun _ => rfl),
      (fun _ => ⟨rfl, rfl, rfl⟩), (fun _ => rfl), (fun _ => rfl)⟩
    rw [hopen, hbody]
    exact finishPlot_flat start stop (.num (0.131 : ℚ)) (.num 1024) .none .none .none .none (.num 0) .none .none .none (.str "") flat
  · -- version 2
    have hbody : jsonBody (synthDoc 2 start stop dwellV nfftV deviceV gainV loV calV tunerV timeV latV lonV descV flat nested) =
        (loopFlat (dictSet ([] : List (ℚ × PyVal)) 1 (.dictN []))
          ((flat.map (fun fp => (ratToKey fp.1, fp.2))).map
            (fun kv => (PyVal.str kv.1, kv.2)))) >>= (fun spectrum =>
          Except.ok ⟨.str APP_NAME, start, stop, dwellV, nfftV, .none, .none, .none, .none, .num 0, .none, .none, .none, .str "",
            spectrum, []⟩) := rfl
    rw [loopFlat_encoded flat hflat] at hbody
    simp only [ebind_ok] at hbody
    have hopen : open_plot (some ⟨[], .unpickling,
        some (synthDoc 2 start stop dwellV nfftV deviceV gainV loV calV tunerV timeV latV lonV descV flat nested)⟩) =
        (match jsonBody (synthDoc 2 start stop dwellV nfftV deviceV gainV loV calV tunerV timeV latV lonV descV flat nested) with
         | .error .valueError => Except.ok OpenResult.corrupt
         | .error .keyError => Except.ok OpenResult.corrupt
         | .error e => Except.error e
         | .ok flds => finishPlot flds) := rfl
    refine ⟨⟨start, stop, dwellV, nfftV, .none, .none, .none, .none, .num 0, .none, .none, .none, .str ""⟩,
      [((1 : ℚ), List.insertionSort entryLe flat)], ?_, rfl, rfl, (fun hv => absurd hv (by norm_num)),
      (fun _ => ⟨rfl, rfl, rfl, rfl⟩), (fun _ => rfl),
      (fun _ => ⟨rfl, rfl, rfl⟩), (fun _ => rfl), (fun _ => rfl)⟩
    rw [hopen, hbody]
    exact finishPlot_flat start stop dwellV nfftV .none .none .none .none (.num 0) .none .none .none (.str "") flat
  · -- version 3
    have hbody : jsonBody (synthDoc 3 start stop dwellV nfftV deviceV gainV loV calV tunerV timeV latV lonV descV flat nested) =
        (loopFlat (dictSet ([] : List (ℚ × PyVal)) 1 (.dictN []))
          ((flat.map (fun fp => (ratToKey fp.1, fp.2))).map
            (fun kv => (PyVal.str kv.1, kv.2)))) >>= (fun spectrum =>
          Except.ok ⟨.str APP_NAME, start, stop, dwellV, nfftV, deviceV, gainV, loV, calV, .num 0, .none, .none, .none, .str "",
            spectrum, []⟩) := rfl
    rw [loopFlat_encoded flat hflat] at hbody
    simp only [ebind_ok] at hbody
    have hopen : open_plot (some ⟨[], .unpickling,
        some (synthDoc 3 start stop dwellV nfftV deviceV gainV loV calV tunerV timeV latV lonV descV flat nested)⟩) =
        (match jsonBody (synthDoc 3 start stop dwellV nfftV deviceV gainV loV calV tunerV timeV latV lonV descV flat nested) with
         | .error .valueError => Except.ok OpenResult.corrupt
         | .error .keyError => Except.ok OpenResult.corrupt
         | .error e => Except.error e
         | .ok flds => finishPlot flds) := rfl
    refine ⟨⟨start, stop, dwellV, nfftV, deviceV, gainV, loV, calV, .num 0, .none, .none, .none, .str ""⟩,
      [((1 : ℚ), List.insertionSort entryLe flat)], ?_, rfl, rfl, (fun hv => absurd hv (by norm_num)),
      (fun hv => absurd hv (by norm_num)), (fun _ => rfl),
      (fun _ => ⟨rfl, rfl, rfl⟩), (fun _ => rfl), (fun _ => rfl)⟩
    rw [hopen, hbody]
    exact finishPlot_flat start stop dwellV nfftV deviceV gainV loV calV (.num 0) .none .none .none (.str "") flat
  · -- version 4
    have hbody : jsonBody (synthDoc 4 start stop dwellV nfftV deviceV gainV loV calV tunerV timeV latV lonV descV flat nested) =
        (loopFlat (dictSet ([] : List (ℚ × PyVal)) 1 (.dictN []))
          ((flat.map (fun fp => (ratToKey fp.1, fp.2))).map
            (fun kv => (PyVal.str kv.1, kv.2)))) >>= (fun spectrum =>
          Except.ok ⟨.str APP_NAME, start, stop, dwellV, nfftV, deviceV, gainV, loV, calV, .num 0, .none, .none, .none, .str "",
            spectrum, []⟩) := rfl
    rw [loopFlat_encoded flat hflat] at hbody
    simp only [ebind_ok] at hbody
    have hopen : open_plot (some ⟨[], .unpickling,
        some (synthDoc 4 start stop dwellV nfftV deviceV gainV loV calV tunerV timeV latV lonV descV flat nested)⟩) =
        (match jsonBody (synthDoc 4 start stop dwellV nfftV deviceV gainV loV calV tunerV timeV latV lonV descV flat nested) with
         | .error .valueError => Except.ok OpenResult.corrupt
         | .error .keyError => Except.ok OpenResult.corrupt
         | .error e => Except.error e
         | .ok flds => finishPlot flds) := rfl
    refine ⟨⟨start, stop, dwellV, nfftV, deviceV, gainV, loV, calV, .num 0, .none, .none, .none, .str ""⟩,
      [((1 : ℚ), List.insertionSort entryLe flat)], ?_, rfl, rfl, (fun hv => absurd hv (by norm_num)),
      (fun hv => absurd hv (by norm_num)), (fun _ => rfl),
      (fun _ => ⟨rfl, rfl, rfl⟩), (fun _ => rfl), (fun _ => rfl)⟩
    rw [hopen, hbody]
    exact finishPlot_flat start stop dwellV nfftV deviceV gainV loV calV (.num 0) .none .none .none (.str "") flat
  · -- version 5
    have hbody : jsonBody (synthDoc 5 start stop dwellV nfftV deviceV gainV loV calV tunerV timeV latV lonV descV flat nested) =
        (loopFlat (dictSet ([] : List (ℚ × PyVal)) 1 (.dictN []))
          ((flat.map (fun fp => (ratToKey fp.1, fp.2))).map
            (fun kv => (PyVal.str kv.1, kv.2)))) >>= (fun spectrum =>
          Except.ok ⟨.str APP_NAME, start, stop, dwellV, nfftV, deviceV, gainV, loV, calV, tunerV, .none, .none, .none, .str "",
            spectrum, []⟩) := rfl
    rw [loopFlat_encoded flat hflat] at hbody
    simp only [ebind_ok] at hbody
    have hopen : open_plot (some ⟨[], .unpickling,
        some (synthDoc 5 start stop dwellV nfftV deviceV gainV loV calV tunerV timeV latV lonV descV flat nested)⟩) =
        (match jsonBody (synthDoc 5 start stop dwellV nfftV deviceV gainV loV calV tunerV timeV latV lonV descV flat nested) with
         | .error .valueError => Except.ok OpenResult.corrupt
         | .error .keyError => Except.ok OpenResult.corrupt
         | .error e => Except.error e
         | .ok flds => finishPlot flds) := rfl
    refine ⟨⟨start, stop, dwellV, nfftV, deviceV, gainV, loV, calV, tunerV, .none, .none, .none, .str ""⟩,
      [((1 : ℚ), List.insertionSort entryLe flat)], ?_, rfl, rfl, (fun hv => absurd hv (by norm_num)),
      (fun hv => absurd hv (by norm_num)), (fun hv => absurd hv (by norm_num)),
      (fun _ => ⟨rfl, rfl, rfl⟩), (fun _ => rfl), (fun _ => rfl)⟩
    rw [hopen, hbody]
    exact finishPlot_flat start stop dwellV nfftV deviceV gainV loV calV tunerV .none .none .none (.str "") flat
  · -- version 6
    have hbody : jsonBody (synthDoc 6 start stop dwellV nfftV deviceV gainV loV calV tunerV timeV latV lonV descV flat nested) =
        (loopFlat (dictSet ([] : List (ℚ × PyVal)) 1 (.dictN []))
          ((flat.map (fun fp => (ratToKey fp.1, fp.2))).map
            (fun kv => (PyVal.str kv.1, kv.2)))) >>= (fun spectrum =>
          Except.ok ⟨.str APP_NAME, start, stop, dwellV, nfftV, deviceV, gainV, loV, calV, tunerV, timeV, latV, lonV, .str "",
            spectrum, []⟩) := rfl
    rw [loopFlat_encoded flat hflat] at hbody
    simp only [ebind_ok] at hbody
    have hopen : open_plot (some ⟨[], .unpickling,
        some (synthDoc 6 start stop dwellV nfftV deviceV gainV loV calV tunerV timeV latV lonV descV flat nested)⟩) =
        (match jsonBody (synthDoc 6 start stop dwellV nfftV deviceV gainV loV calV tunerV timeV latV lonV descV flat nested) with
         | .error .valueError => Except.ok OpenResult.corrupt
         | .error .keyError => Except.ok OpenResult.corrupt
         | .error e => Except.error e
         | .ok flds => finishPlot flds) := rfl
    refine ⟨⟨start, stop, dwellV, nfftV, deviceV, gainV, loV, calV, tunerV, timeV, latV, lonV, .str ""⟩,
      [((1 : ℚ), List.insertionSort entryLe flat)], ?_, rfl, rfl, (fun hv => absurd hv (by norm_num)),
      (fun hv => absurd hv (by norm_num)), (fun hv => absurd hv (by norm_num)),
      (fun hv => absurd hv (by norm_num)), (fun _ => rfl), (fun _ => rfl)⟩
    rw [hopen, hbody]
    exact finishPlot_flat start stop dwellV nfftV deviceV gainV loV calV tunerV timeV latV lonV (.str "") flat
  · -- version 7
    have hnodout : (nested.map Prod.fst).Nodup :=
      nodup_keys_of_pairwise_lt nested hnest
    have hnodin : ∀ e ∈ nested, (e.2.map Prod.fst).Nodup :=
      fun e he => nodup_keys_of_pairwise_lt _ (hnestin e he)
    have hbody : jsonBody (synthDoc 7 start stop dwellV nfftV deviceV gainV loV calV tunerV timeV latV lonV descV flat nested) =
        (loopNested [] ((nested.map (fun ts => (ratToKey ts.1,
          PyVal.dictS (ts.2.map (fun fp => (ratToKey fp.1, fp.2)))))).map
          (fun kv => (PyVal.str kv.1, kv.2)))) >>= (fun spectrum =>
          Except.ok ⟨.str APP_NAME, start, stop, dwellV, nfftV, deviceV, gainV, loV, calV, tunerV, timeV, latV, lonV, .str "",
            spectrum, []⟩) := rfl
    rw [loopNested_encoded nested hnodout hnodin] at hbody
    simp only [ebind_ok] at hbody
    have hopen : open_plot (some ⟨[], .unpickling,
        some (synthDoc 7 start stop dwellV nfftV deviceV gainV loV calV tunerV timeV latV lonV descV flat nested)⟩) =
        (match jsonBody (synthDoc 7 start stop dwellV nfftV deviceV gainV loV calV tunerV timeV latV lonV descV flat nested) with
         | .error .valueError => Except.ok OpenResult.corrupt
         | .error .keyError => Except.ok OpenResult.corrupt
         | .error e => Except.error e
         | .ok flds => finishPlot flds) := rfl
    refine ⟨⟨start, stop, dwellV, nfftV, deviceV, gainV, loV, calV, tunerV, timeV, latV, lonV, .str ""⟩,
      nested, ?_, rfl, rfl, (fun hv => absurd hv (by norm_num)),
      (fun hv => absurd hv (by norm_num)), (fun hv => absurd hv (by norm_num)),
      (fun hv => absurd hv (by norm_num)), (fun _ => rfl), (fun hv => absurd hv (by norm_num))⟩
    rw [hopen, hbody]
    exact finishPlot_nested start stop dwellV nfftV deviceV gainV loV calV tunerV timeV latV lonV (.str "") nested hnest hnestin
  · -- version 8
    have hnodout : (nested.map Prod.fst).Nodup :=
      nodup_keys_of_pairwise_lt nested hnest
    have hnodin : ∀ e ∈ nested, (e.2.map Prod.fst).Nodup :=
      fun e he => nodup_keys_of_pairwise_lt _ (hnestin e he)
    have hbody : jsonBody (synthDoc 8 start stop dwellV nfftV deviceV gainV loV calV tunerV timeV latV lonV descV flat nested) =
        (loopNested [] ((nested.map (fun ts => (ratToKey ts.1,
          PyVal.dictS (ts.2.map (fun fp => (ratToKey fp.1, fp.2)))))).map
          (fun kv => (PyVal.str kv.1, kv.2)))) >>= (fun spectrum =>
          Except.ok ⟨.str APP_NAME, start, stop, dwellV, nfftV, deviceV, gainV, loV, calV, tunerV, timeV, latV, lonV, descV,
            spectrum, []⟩) := rfl
    rw [loopNested_encoded nested hnodout hnodin] at hbody
    simp only [ebind_ok] at hbody
    have hopen : open_plot (some ⟨[], .unpickling,
        some (synthDoc 8 start stop dwellV nfftV deviceV gainV loV calV tunerV timeV latV lonV descV flat nested)⟩) =
        (match jsonBody (synthDoc 8 start stop dwellV nfftV deviceV gainV loV calV tunerV timeV latV lonV descV flat nested) with
         | .error .valueError => Except.ok OpenResult.corrupt
         | .error .keyError => Except.ok OpenResult.corrupt
         | .error e => Except.error e
         | .ok flds => finishPlot flds) := rfl
    refine ⟨⟨start, stop, dwellV, nfftV, deviceV, gainV, loV, calV, tunerV, timeV, latV, lonV, descV⟩,
      nested, ?_, rfl, rfl, (fun hv => absurd hv (by norm_num)),
      (fun hv => absurd hv (by norm_num)), (fun hv => absurd hv (by norm_num)),
      (fun hv => absurd hv (by norm_num)), (fun hv => absurd hv (by norm_num)), (fun hv => absurd hv (by norm_num))⟩
    rw [hopen, hbody]
    exact finishPlot_nested start stop dwellV nfftV deviceV gainV loV calV tunerV timeV latV lonV descV nested hnest hnestin

/-- Witness for C2 at version 1: a minimal flat document gets every
documented default and the single-sweep promotion. -/
theorem open_plot_version_migration_witness :
    ∃ info sp, open_plot (some ⟨[], .unpickling,
        some (synthDoc 1 (.num 10) (.num 20) .none .none .none .none .none .none
          .none .none .none .none .none [((2 : ℚ), PyVal.num 5)] [])⟩) =
      .ok (.ok info sp []) ∧
      info.start = .num 10 ∧ info.stop = .num 20 ∧
      (1 ≤ 1 → info.dwell = .num (0.131 : ℚ) ∧ info.nfft = .num 1024) ∧
      (1 ≤ 2 → info.name = .none ∧ info.gain = .none ∧ info.lo = .none ∧
        info.calibration = .none) ∧
      (1 ≤ 4 → info.tuner = .num 0) ∧
      (1 ≤ 5 → info.time = .none ∧ info.lat = .none ∧ info.lon = .none) ∧
      (1 ≤ 7 → info.desc = .str "") ∧
      (1 < 7 → sp = [((1 : ℚ),
        List.insertionSort entryLe [((2 : ℚ), PyVal.num 5)])]) :=
  open_plot_version_migration 1 (by norm_num) (by norm_num) (.num 10) (.num 20)
    .none .none .none .none .none .none .none .none .none .none .none
    [((2 : ℚ), PyVal.num 5)] [] (by decide) (by decide) (by decide)

/-! ## The backup manager (`class Backups`) -/

/-- The snapshot tuple `(scanInfo, spectrum, location)` the backup worker
pickles; unpickling restores the object graph exactly. -/
structure BackupData where
  scanInfo : ScanInfo
  spectrum : SpectrumM
  location : LocationM

/-- State of one `Backups` instance: the content of its private scratch
file (`none` models the empty file `mkstemp` creates), the running
worker and its snapshot (`self.thread`, `None` when idle), and a count
of completed scratch-file writes. -/
structure BackupsState where
  scratch : Option BackupData
  pending : Option BackupData
  writes : ℕ

/-- Events of the backup lifecycle: a `save` call from the producer and
the completion of the background worker. -/
inductive BackupEv where
  | save (data : BackupData)
  | workerDone

/-- One step: `Backups.save` (lines 249-254) spawns a worker only if
`self.thread is None`, dropping the request otherwise; `__save`
(lines 240-244) writes the pickled tuple over the scratch file and then
clears `self.thread`. -/
def backupsStep (st : BackupsState) (ev : BackupEv) : BackupsState :=
  match ev with
  | .save d => if st.pending.isNone then { st with pending := some d } else st
  | .workerDone =>
    match st.pending with
    | some d => { scratch := some d, pending := Option.none, writes := st.writes + 1 }
    | Option.none => st

/-- Run a sequence of backup events. -/
def backupsRun (st : BackupsState) (evs : List BackupEv) : BackupsState :=
  evs.foldl backupsStep st

/-- `Backups.load` (lines 256-262): a single `pickle.load` of the chosen
file — the same serializer the worker used, with no version probing; an
empty file raises `EOFError`. -/
def backupLoad (content : Option BackupData) : Except PyExn BackupData :=
  match content with
  | some d => .ok d
  | Option.none => .error .eofError

/-- Claim C7: the save worker serializes the snapshot triple to the
scratch file with the legacy binary serializer (a single pickled tuple),
and `Backups.load` decodes a backup through that same path only — one
unpickle, no version probing — returning the reconstructed
(Scan Session, spectrum, location) triple: what save wrote, load reads
back. -/
theorem backup_save_load_roundtrip (st : BackupsState) (d : BackupData)
    (hidle : st.pending = Option.none) :
    (backupsRun st [BackupEv.save d, BackupEv.workerDone]).scratch = some d ∧
    backupLoad (backupsRun st [BackupEv.save d, BackupEv.workerDone]).scratch =
      .ok d := by
  have hrun : backupsRun st [BackupEv.save d, BackupEv.workerDone] =
      { scratch := some d, pending := Option.none, writes := st.writes + 1 } := by
    simp [backupsRun, backupsStep, hidle]
  rw [hrun]
  exact ⟨rfl, rfl⟩

/-- Witness for C7 at a concrete snapshot. -/
theorem backup_save_load_roundtrip_witness :
    (backupsRun ⟨Option.none, Option.none, 0⟩ [BackupEv.save
      ⟨⟨.num 1, .num 2, .num 3, .num 4, .str "d", .num 5, .num 6, .num 7, .num 8,
        .num 9, .num 10, .num 11, .str "x"⟩, [(1, [(2, .num 3)])],
        [(4, .list [.num 1, .num 2, .num 3])]⟩,
      BackupEv.workerDone]).scratch = some
      ⟨⟨.num 1, .num 2, .num 3, .num 4, .str "d", .num 5, .num 6, .num 7, .num 8,
        .num 9, .num 10, .num 11, .str "x"⟩, [(1, [(2, .num 3)])],
        [(4, .list [.num 1, .num 2, .num 3])]⟩ ∧
    backupLoad (backupsRun ⟨Option.none, Option.none, 0⟩ [BackupEv.save
      ⟨⟨.num 1, .num 2, .num 3, .num 4, .str "d", .num 5, .num 6, .num 7, .num 8,
        .num 9, .num 10, .num 11, .str "x"⟩, [(1, [(2, .num 3)])],
        [(4, .list [.num 1, .num 2, .num 3])]⟩,
      BackupEv.workerDone]).scratch = .ok
      ⟨⟨.num 1, .num 2, .num 3, .num 4, .str "d", .num 5, .num 6, .num 7, .num 8,
        .num 9, .num 10, .num 11, .str "x"⟩, [(1, [(2, .num 3)])],
        [(4, .list [.num 1, .num 2, .num 3])]⟩ :=
  backup_save_load_roundtrip ⟨Option.none, Option.none, 0⟩ _ rfl

/-- Claim C8: at most one save is in flight — a save arriving while a
worker runs is dropped (a no-op on the whole state, not queued), so two
saves issued before the first worker finishes cause exactly one write,
after which the scratch file holds the first snapshot and decodes
back to it. -/
theorem backup_save_collapse (st : BackupsState) (d1 d2 : BackupData)
    (hidle : st.pending = Option.none) :
    backupsStep (backupsStep st (BackupEv.save d1)) (BackupEv.save d2) =
      backupsStep st (BackupEv.save d1) ∧
    (backupsRun st [BackupEv.save d1, BackupEv.save d2,
      BackupEv.workerDone]).writes = st.writes + 1 ∧
    (backupsRun st [BackupEv.save d1, BackupEv.save d2,
      BackupEv.workerDone]).scratch = some d1 ∧
    backupLoad (backupsRun st [BackupEv.save d1, BackupEv.save d2,
      BackupEv.workerDone]).scratch = .ok d1 := by
  have hstep1 : backupsStep st (BackupEv.save d1) = { st with pending := some d1 } := by
    simp [backupsStep, hidle]
  have hstep2 : backupsStep { st with pending := some d1 } (BackupEv.save d2) =
      { st with pending := some d1 } := by
    simp [backupsStep]
  have hrun : backupsRun st [BackupEv.save d1, BackupEv.save d2, BackupEv.workerDone] =
      { scratch := some d1, pending := Option.none, writes := st.writes + 1 } := by
    show backupsStep (backupsStep (backupsStep st (BackupEv.save d1))
      (BackupEv.save d2)) BackupEv.workerDone = _
    rw [hstep1, hstep2]
    simp [backupsStep]
  rw [hstep1, hstep2, hrun]
  exact ⟨rfl, rfl, rfl, rfl⟩

/-- Witness for C8: two rapid saves from an idle state write once and
keep the first snapshot. -/
theorem backup_save_collapse_witness :
    (backupsRun ⟨Option.none, Option.none, 0⟩ [BackupEv.save ⟨⟨.num 1, .num 2,
      .num 3, .num 4, .str "a", .num 5, .num 6, .num 7, .num 8, .num 9, .num 10,
      .num 11, .str "x"⟩, [], []⟩, BackupEv.save ⟨⟨.num 9, .num 9, .num 9, .num 9,
      .str "b", .num 9, .num 9, .num 9, .num 9, .num 9, .num 9, .num 9, .str "y"⟩,
      [], []⟩, BackupEv.workerDone]).writes = 0 + 1 ∧
    (backupsRun ⟨Option.none, Option.none, 0⟩ [BackupEv.save ⟨⟨.num 1, .num 2,
      .num 3, .num 4, .str "a", .num 5, .num 6, .num 7, .num 8, .num 9, .num 10,
      .num 11, .str "x"⟩, [], []⟩, BackupEv.save ⟨⟨.num 9, .num 9, .num 9, .num 9,
      .str "b", .num 9, .num 9, .num 9, .num 9, .num 9, .num 9, .num 9, .str "y"⟩,
      [], []⟩, BackupEv.workerDone]).scratch = some ⟨⟨.num 1, .num 2, .num 3,
      .num 4, .str "a", .num 5, .num 6, .num 7, .num 8, .num 9, .num 10, .num 11,
      .str "x"⟩, [], []⟩ :=
  ⟨(backup_save_collapse ⟨Option.none, Option.none, 0⟩ _ _ rfl).2.1,
    (backup_save_collapse ⟨Option.none, Option.none, 0⟩ _ _ rfl).2.2.1⟩

/-! ## The backup catalog (`Backups.__get`) -/

/-- The scratch-file name marker (`Backups.PREFIX`). -/
def prefixStr : String := "rsba_"

/-- Python's lexicographic tuple comparison on (name, mtime, size)
entries, as used by `files.sort()`; string comparison is code-point
lexicographic, taken on the character lists. -/
def tupleLe (a b : String × ℕ × ℕ) : Prop :=
  a.1.data < b.1.data ∨
    (a.1 = b.1 ∧ (a.2.1 < b.2.1 ∨ (a.2.1 = b.2.1 ∧ a.2.2 ≤ b.2.2)))

theorem str_ext {a b : String} (h : a.data = b.data) : a = b := by
  cases a
  cases b
  exact congrArg String.mk h

instance : DecidableRel tupleLe := fun a b => by
  unfold tupleLe
  infer_instance

instance : IsTotal (String × ℕ × ℕ) tupleLe := by
  refine ⟨fun a b => ?_⟩
  rcases lt_trichotomy a.1.data b.1.data with h | h | h
  · exact Or.inl (Or.inl h)
  · have he : a.1 = b.1 := str_ext h
    rcases lt_trichotomy a.2.1 b.2.1 with h2 | h2 | h2
    · exact Or.inl (Or.inr ⟨he, Or.inl h2⟩)
    · rcases le_total a.2.2 b.2.2 with h3 | h3
      · exact Or.inl (Or.inr ⟨he, Or.inr ⟨h2, h3⟩⟩)
      · exact Or.inr (Or.inr ⟨he.symm, Or.inr ⟨h2.symm, h3⟩⟩)
    · exact Or.inr (Or.inr ⟨he.symm, Or.inl h2⟩)
  · exact Or.inr (Or.inl h)

instance : IsTrans (String × ℕ × ℕ) tupleLe := by
  refine ⟨fun a b c hab hbc => ?_⟩
  rcases hab with h1 | ⟨e1, h1⟩
  · rcases hbc with h2 | ⟨e2, _⟩
    · exact Or.inl (lt_trans h1 h2)
    · exact Or.inl (e2 ▸ h1)
  · rcases hbc with h2 | ⟨e2, h2⟩
    · exact Or.inl (e1 ▸ h2)
    · refine Or.inr ⟨e1.trans e2, ?_⟩
      rcases h1 with h1 | ⟨f1, h1⟩
      · rcases h2 with h2 | ⟨f2, _⟩
        · exact Or.inl (h1.trans h2)
        · exact Or.inl (f2 ▸ h1)
      · rcases h2 with h2 | ⟨f2, h2⟩
        · exact Or.inl (f1 ▸ h2)
        · exact Or.inr ⟨f1.trans f2, h1.trans h2⟩

/-- The stat-and-filter loop of `Backups.__get` (lines 225-234): for each
candidate name, read its modification time and size from the directory
`listing`, keep non-empty files and delete empty ones.  Returns the kept
(name, mtime, size) entries in candidate order and the deleted names. -/
def catalogScan (listing : List (String × ℕ × ℕ)) :
    List String → List (String × ℕ × ℕ) × List String
  | [] => ([], [])
  | n :: rest =>
    match listing.find? (fun e => e.1 == n) with
    | some e =>
      let r := catalogScan listing rest
      if e.2.2 ≠ 0 then ((n, e.2.1, e.2.2) :: r.1, r.2)
      else (r.1, n :: r.2)
    | Option.none => catalogScan listing rest

/-- `Backups.__get` (lines 219-238): glob the scratch-file candidates,
remove the process's own scratch file from the candidate list, stat and
filter them, then `files.sort(); files.reverse()`.  `listing` models the
backup directory as (name, mtime, size) rows; the result is the catalog
plus the names deleted from disk. -/
def backups_get (tempFile : String) (listing : List (String × ℕ × ℕ)) :
    List (String × ℕ × ℕ) × List String :=
  let names := ((listing.map Prod.fst).filter
    (fun n => prefixStr.data.isPrefixOf n.data)).erase tempFile
  let r := catalogScan listing names
  ((List.insertionSort tupleLe r.1).reverse, r.2)

/-- Counterexample to claim C9 as stated: the process's own scratch file
is itself a zero-byte scratch file right after `mkstemp` creates it, yet
`__get` removes it from the candidate list before the zero-size check —
so with the own (zero-byte) file as the only scratch file on disk,
nothing is deleted, refuting "deletes every zero-byte scratch file from
disk". -/
theorem backups_get_own_zero_not_deleted :
    prefixStr.data.isPrefixOf "rsba_self".data = true ∧
    backups_get "rsba_self" [("rsba_self", 5, 0)] = ([], []) :=
  ⟨rfl, rfl⟩

theorem nodup_keys_inj {α β : Type} (l : List (α × β))
    (hnd : (l.map Prod.fst).Nodup) {e f : α × β} (he : e ∈ l) (hf : f ∈ l)
    (hname : e.1 = f.1) : e = f := by
  induction l with
  | nil => simp at he
  | cons x t ih =>
    simp only [List.map_cons, List.nodup_cons] at hnd
    rcases List.mem_cons.mp he with rfl | he'
    · rcases List.mem_cons.mp hf with rfl | hf'
      · rfl
      · exact absurd (hname ▸ List.mem_map_of_mem Prod.fst hf') hnd.1
    · rcases List.mem_cons.mp hf with rfl | hf'
      · exact absurd (hname ▸ List.mem_map_of_mem Prod.fst he') hnd.1
      · exact ih hnd.2 he' hf'

theorem find?_name_of_nodup (l : List (String × ℕ × ℕ))
    (hnd : (l.map Prod.fst).Nodup) {e : String × ℕ × ℕ} (he : e ∈ l) :
    l.find? (fun x => x.1 == e.1) = some e := by
  induction l with
  | nil => simp at he
  | cons x t ih =>
    simp only [List.map_cons, List.nodup_cons] at hnd
    by_cases hx : x.1 = e.1
    · rw [List.find?_cons_of_pos _ (by simp [hx])]
      rcases List.mem_cons.mp he with rfl | he'
      · rfl
      · exact absurd (hx ▸ List.mem_map_of_mem Prod.fst he') hnd.1
    · rw [List.find?_cons_of_neg _ (by simp [hx])]
      rcases List.mem_cons.mp he with rfl | he'
      · exact absurd rfl hx
      · exact ih hnd.2 he'

theorem catalogScan_cons_none (listing : List (String × ℕ × ℕ)) (n : String)
    (rest : List String) (hf : listing.find? (fun x => x.1 == n) = Option.none) :
    catalogScan listing (n :: rest) = catalogScan listing rest := by
  rw [catalogScan, hf]

theorem catalogScan_cons_keep (listing : List (String × ℕ × ℕ)) (n : String)
    (rest : List String) (e : String × ℕ × ℕ)
    (hf : listing.find? (fun x => x.1 == n) = some e) (hsz : e.2.2 ≠ 0) :
    catalogScan listing (n :: rest) =
      ((n, e.2.1, e.2.2) :: (catalogScan listing rest).1,
        (catalogScan listing rest).2) := by
  rw [catalogScan, hf]
  show (if e.2.2 ≠ 0 then ((n, e.2.1, e.2.2) :: (catalogScan listing rest).1,
      (catalogScan listing rest).2)
    else ((catalogScan listing rest).1, n :: (catalogScan listing rest).2)) = _
  rw [if_pos hsz]

theorem catalogScan_cons_drop (listing : List (String × ℕ × ℕ)) (n : String)
    (rest : List String) (e : String × ℕ × ℕ)
    (hf : listing.find? (fun x => x.1 == n) = some e) (hsz : ¬ e.2.2 ≠ 0) :
    catalogScan listing (n :: rest) =
      ((catalogScan listing rest).1, n :: (catalogScan listing rest).2) := by
  rw [catalogScan, hf]
  show (if e.2.2 ≠ 0 then ((n, e.2.1, e.2.2) :: (catalogScan listing rest).1,
      (catalogScan listing rest).2)
    else ((catalogScan listing rest).1, n :: (catalogScan listing rest).2)) = _
  rw [if_neg hsz]

theorem catalogScan_files_mem (listing : List (String × ℕ × ℕ)) :
    ∀ (names : List String) (x : String × ℕ × ℕ),
      x ∈ (catalogScan listing names).1 → x ∈ listing ∧ x.1 ∈ names ∧ x.2.2 ≠ 0 := by
  intro names
  induction names with
  | nil => intro x hx; simp [catalogScan] at hx
  | cons n rest ih =>
    intro x hx
    cases hf : listing.find? (fun e => e.1 == n) with
    | none =>
      rw [catalogScan_cons_none listing n rest hf] at hx
      obtain ⟨h1, h2, h3⟩ := ih x hx
      exact ⟨h1, List.mem_cons_of_mem n h2, h3⟩
    | some e =>
      have hn : e.1 = n := by
        have := List.find?_some hf
        simpa using this
      by_cases hsz : e.2.2 ≠ 0
      · rw [catalogScan_cons_keep listing n rest e hf hsz] at hx
        rcases List.mem_cons.mp hx with rfl | hx'
        · refine ⟨?_, by simp, by simpa using hsz⟩
          have hmem := List.mem_of_find?_eq_some hf
          have heq : (n, e.2.1, e.2.2) = e := by
            rw [← hn]
          rw [heq]
          exact hmem
        · obtain ⟨h1, h2, h3⟩ := ih x hx'
          exact ⟨h1, List.mem_cons_of_mem n h2, h3⟩
      · rw [catalogScan_cons_drop listing n rest e hf hsz] at hx
        obtain ⟨h1, h2, h3⟩ := ih x hx
        exact ⟨h1, List.mem_cons_of_mem n h2, h3⟩

theorem catalogScan_files_sublist (listing : List (String × ℕ × ℕ)) :
    ∀ names : List String,
      List.Sublist ((catalogScan listing names).1.map Prod.fst) names := by
  intro names
  induction names with
  | nil => simp [catalogScan]
  | cons n rest ih =>
    cases hf : listing.find? (fun e => e.1 == n) with
    | none =>
      rw [catalogScan_cons_none listing n rest hf]
      exact ih.cons n
    | some e =>
      by_cases hsz : e.2.2 ≠ 0
      · rw [catalogScan_cons_keep listing n rest e hf hsz]
        simpa using ih.cons₂ n
      · rw [catalogScan_cons_drop listing n rest e hf hsz]
        exact ih.cons n

theorem catalogScan_complete (listing : List (String × ℕ × ℕ))
    (hnd : (listing.map Prod.fst).Nodup) :
    ∀ (names : List String) (e : String × ℕ × ℕ), e ∈ listing → e.1 ∈ names →
      e.2.2 ≠ 0 → e ∈ (catalogScan listing names).1 := by
  intro names
  induction names with
  | nil => intro e _ hn; simp at hn
  | cons n rest ih =>
    intro e he hn hsz
    rcases List.mem_cons.mp hn with hn1 | hn2
    · have hf : listing.find? (fun x => x.1 == n) = some e := by
        rw [← hn1]
        exact find?_name_of_nodup listing hnd he
      rw [catalogScan_cons_keep listing n rest e hf hsz]
      have heq : (n, e.2.1, e.2.2) = e := by
        rw [← hn1]
      rw [heq]
      exact List.mem_cons_self _ _
    · cases hf : listing.find? (fun x => x.1 == n) with
      | none =>
        rw [catalogScan_cons_none listing n rest hf]
        exact ih e he hn2 hsz
      | some f =>
        by_cases hsz2 : f.2.2 ≠ 0
        · rw [catalogScan_cons_keep listing n rest f hf hsz2]
          exact List.mem_cons_of_mem _ (ih e he hn2 hsz)
        · rw [catalogScan_cons_drop listing n rest f hf hsz2]
          exact ih e he hn2 hsz

theorem catalogScan_deleted (listing : List (String × ℕ × ℕ))
    (hnd : (listing.map Prod.fst).Nodup) :
    ∀ (names : List String) (e : String × ℕ × ℕ), e ∈ listing → e.1 ∈ names →
      e.2.2 = 0 → e.1 ∈ (catalogScan listing names).2 := by
  intro names
  induction names with
  | nil => intro e _ hn; simp at hn
  | cons n rest ih =>
    intro e he hn hsz
    rcases List.mem_cons.mp hn with hn1 | hn2
    · have hf : listing.find? (fun x => x.1 == n) = some e := by
        rw [← hn1]
        exact find?_name_of_nodup listing hnd he
      rw [catalogScan_cons_drop listing n rest e hf (by simp [hsz])]
      rw [← hn1]
      exact List.mem_cons_self _ _
    · cases hf : listing.find? (fun x => x.1 == n) with
      | none =>
        rw [catalogScan_cons_none listing n rest hf]
        exact ih e he hn2 hsz
      | some f =>
        by_cases hsz2 : f.2.2 ≠ 0
        · rw [catalogScan_cons_keep listing n rest f hf hsz2]
          exact ih e he hn2 hsz
        · rw [catalogScan_cons_drop listing n rest f hf hsz2]
          exact List.mem_cons_of_mem n (ih e he hn2 hsz)

/-- Claim C9 amended: the catalog never lists the process's own scratch
file; every zero-byte scratch file OTHER THAN the process's own is
deleted from disk and excluded from the result (the own file is removed
from the candidate list before the zero-size check, so it is never
deleted); every other non-empty scratch file appears in the result,
paired with its modification time and size from the directory; and the
result is sorted by filename descending. -/
theorem backups_get_spec (tempFile : String) (listing : List (String × ℕ × ℕ))
    (hnd : (listing.map Prod.fst).Nodup) :
    (∀ e ∈ (backups_get tempFile listing).1, e.1 ≠ tempFile) ∧
    (∀ e ∈ listing, prefixStr.data.isPrefixOf e.1.data = true → e.1 ≠ tempFile →
      e.2.2 = 0 → e.1 ∈ (backups_get tempFile listing).2 ∧
        ∀ f ∈ (backups_get tempFile listing).1, f.1 ≠ e.1) ∧
    (∀ e ∈ listing, prefixStr.data.isPrefixOf e.1.data = true → e.1 ≠ tempFile →
      e.2.2 ≠ 0 → e ∈ (backups_get tempFile listing).1) ∧
    (∀ e ∈ (backups_get tempFile listing).1, e ∈ listing) ∧
    List.Pairwise (fun a b : String × ℕ × ℕ => b.1.data < a.1.data)
      (backups_get tempFile listing).1 := by
  have hget : backups_get tempFile listing =
      ((List.insertionSort tupleLe (catalogScan listing
        (((listing.map Prod.fst).filter
          (fun n => prefixStr.data.isPrefixOf n.data)).erase tempFile)).1).reverse,
       (catalogScan listing
        (((listing.map Prod.fst).filter
          (fun n => prefixStr.data.isPrefixOf n.data)).erase tempFile)).2) := rfl
  have hfilter_nd : ((listing.map Prod.fst).filter
      (fun n => prefixStr.data.isPrefixOf n.data)).Nodup := hnd.filter _
  have hnames_nd : (((listing.map Prod.fst).filter
      (fun n => prefixStr.data.isPrefixOf n.data)).erase tempFile).Nodup :=
    hfilter_nd.erase tempFile
  have htmp : tempFile ∉ ((listing.map Prod.fst).filter
      (fun n => prefixStr.data.isPrefixOf n.data)).erase tempFile := by
    intro hmem
    exact absurd ((List.Nodup.mem_erase_iff hfilter_nd).mp hmem).1 (by simp)
  have hmem_names : ∀ e ∈ listing, prefixStr.data.isPrefixOf e.1.data = true →
      e.1 ≠ tempFile → e.1 ∈ ((listing.map Prod.fst).filter
        (fun n => prefixStr.data.isPrefixOf n.data)).erase tempFile :=
    fun e he hpre hne => (List.Nodup.mem_erase_iff hfilter_nd).mpr
      ⟨hne, List.mem_filter.mpr ⟨List.mem_map_of_mem Prod.fst he, hpre⟩⟩
  have hperm : List.Perm (List.insertionSort tupleLe (catalogScan listing
      (((listing.map Prod.fst).filter
        (fun n => prefixStr.data.isPrefixOf n.data)).erase tempFile)).1)
      (catalogScan listing (((listing.map Prod.fst).filter
        (fun n => prefixStr.data.isPrefixOf n.data)).erase tempFile)).1 :=
    List.perm_insertionSort tupleLe _
  have hmemF : ∀ x : String × ℕ × ℕ, x ∈ (backups_get tempFile listing).1 ↔
      x ∈ (catalogScan listing (((listing.map Prod.fst).filter
        (fun n => prefixStr.data.isPrefixOf n.data)).erase tempFile)).1 := by
    intro x
    rw [hget]
    simp only [List.mem_reverse]
    exact hperm.mem_iff
  refine ⟨?_, ?_, ?_, ?_, ?_⟩
  · intro e he
    obtain ⟨_, hn, _⟩ := catalogScan_files_mem listing _ e ((hmemF e).mp he)
    intro hE
    exact htmp (hE ▸ hn)
  · intro e he hpre hne hz
    constructor
    · rw [hget]
      exact catalogScan_deleted listing hnd _ e he (hmem_names e he hpre hne) hz
    · intro f hf hfe
      obtain ⟨hfl, _, hfz⟩ := catalogScan_files_mem listing _ f ((hmemF f).mp hf)
      have : f = e := nodup_keys_inj listing hnd hfl he hfe
      rw [this] at hfz
      exact hfz hz
  · intro e he hpre hne hz
    exact (hmemF e).mpr
      (catalogScan_complete listing hnd _ e he (hmem_names e he hpre hne) hz)
  · intro e he
    exact (catalogScan_files_mem listing _ e ((hmemF e).mp he)).1
  · rw [hget]
    simp only []
    rw [List.pairwise_reverse]
    have hsorted : List.Pairwise tupleLe (List.insertionSort tupleLe
        (catalogScan listing (((listing.map Prod.fst).filter
          (fun n => prefixStr.data.isPrefixOf n.data)).erase tempFile)).1) :=
      List.sorted_insertionSort tupleLe _
    have hsubl : List.Sublist ((catalogScan listing (((listing.map Prod.fst).filter
        (fun n => prefixStr.data.isPrefixOf n.data)).erase tempFile)).1.map
        Prod.fst) (((listing.map Prod.fst).filter
          (fun n => prefixStr.data.isPrefixOf n.data)).erase tempFile) :=
      catalogScan_files_sublist listing _
    have hfnd : (((catalogScan listing (((listing.map Prod.fst).filter
        (fun n => prefixStr.data.isPrefixOf n.data)).erase tempFile)).1.map
        Prod.fst).Nodup) := hsubl.nodup hnames_nd
    have hsortnd : ((List.insertionSort tupleLe (catalogScan listing
        (((listing.map Prod.fst).filter
          (fun n => prefixStr.data.isPrefixOf n.data)).erase tempFile)).1).map
        Prod.fst).Nodup := ((hperm.map Prod.fst).nodup_iff).mpr hfnd
    have hpne : List.Pairwise (fun a b : String × ℕ × ℕ => a.1 ≠ b.1)
        (List.insertionSort tupleLe (catalogScan listing
          (((listing.map Prod.fst).filter
            (fun n => prefixStr.data.isPrefixOf n.data)).erase tempFile)).1) :=
      List.pairwise_map.mp hsortnd
    refine (hsorted.and hpne).imp (fun hab => ?_)
    rcases hab.1 with hlt | ⟨heq, _⟩
    · exact hlt
    · exact absurd heq hab.2

/-- Witness for the amended C9 on a concrete directory: a foreign
zero-byte scratch file, two live ones, the process's own file and an
unrelated file. -/
theorem backups_get_spec_witness :
    (∀ e ∈ (backups_get "rsba_self" [("rsba_self", 5, 7), ("rsba_a", 1, 0),
      ("rsba_b", 2, 3), ("other", 9, 9), ("rsba_c", 4, 4)]).1, e.1 ≠ "rsba_self") ∧
    (∀ e ∈ [("rsba_self", 5, 7), ("rsba_a", 1, 0), ("rsba_b", 2, 3),
      ("other", 9, 9), ("rsba_c", 4, 4)],
      prefixStr.data.isPrefixOf e.1.data = true → e.1 ≠ "rsba_self" → e.2.2 = 0 →
      e.1 ∈ (backups_get "rsba_self" [("rsba_self", 5, 7), ("rsba_a", 1, 0),
        ("rsba_b", 2, 3), ("other", 9, 9), ("rsba_c", 4, 4)]).2 ∧
      ∀ f ∈ (backups_get "rsba_self" [("rsba_self", 5, 7), ("rsba_a", 1, 0),
        ("rsba_b", 2, 3), ("other", 9, 9), ("rsba_c", 4, 4)]).1, f.1 ≠ e.1) ∧
    (∀ e ∈ [("rsba_self", 5, 7), ("rsba_a", 1, 0), ("rsba_b", 2, 3),
      ("other", 9, 9), ("rsba_c", 4, 4)],
      prefixStr.data.isPrefixOf e.1.data = true → e.1 ≠ "rsba_self" → e.2.2 ≠ 0 →
      e ∈ (backups_get "rsba_self" [("rsba_self", 5, 7), ("rsba_a", 1, 0),
        ("rsba_b", 2, 3), ("other", 9, 9), ("rsba_c", 4, 4)]).1) ∧
    (∀ e ∈ (backups_get "rsba_self" [("rsba_self", 5, 7), ("rsba_a", 1, 0),
      ("rsba_b", 2, 3), ("other", 9, 9), ("rsba_c", 4, 4)]).1,
      e ∈ [("rsba_self", 5, 7), ("rsba_a", 1, 0), ("rsba_b", 2, 3),
        ("other", 9, 9), ("rsba_c", 4, 4)]) ∧
    List.Pairwise (fun a b : String × ℕ × ℕ => b.1.data < a.1.data)
      (backups_get "rsba_self" [("rsba_self", 5, 7), ("rsba_a", 1, 0),
        ("rsba_b", 2, 3), ("other", 9, 9), ("rsba_c", 4, 4)]).1 :=
  backups_get_spec "rsba_self" [("rsba_self", 5, 7), ("rsba_a", 1, 0),
    ("rsba_b", 2, 3), ("other", 9, 9), ("rsba_c", 4, 4)] (by decide)
